import Mathlib

/-!
Verification development for the bsv transaction library.

The Python sources under src/bsv are embedded shallowly: byte strings become
lists of natural numbers (each well-formed byte being < 256), fixed-width
machine integers become Nat with explicit reductions modulo 2^w where the
source performs them, fallible code (exceptions, assertion failures) becomes
Option or Except results.  Modules of the repository that are not present
under src (constants.py, hash.py, script/type.py, unspent.py, curve.py,
base58.py) are modelled from the specification; each such definition carries
a doc comment starting with the words Modelled from the spec.
-/

/-- Bytes are modelled as lists of natural numbers; a well-formed byte is below 256. -/
abbrev Bytes := List Nat

/-- Little-endian fixed-width encoding, the model of Python int.to_bytes(k, little)
for an in-range value. -/
def toBytesLE (n : Nat) : Nat → Bytes
  | 0 => []
  | k + 1 => (n % 256) :: toBytesLE (n / 256) k

/-- Little-endian decoding, the model of Python int.from_bytes(bs, little). -/
def fromBytesLE : Bytes → Nat
  | [] => 0
  | b :: rest => b + 256 * fromBytesLE rest

/-- Big-endian fixed-width encoding, the model of Python int.to_bytes(k, big). -/
def toBytesBE (n k : Nat) : Bytes := (toBytesLE n k).reverse

/-- Big-endian decoding, the model of Python int.from_bytes(bs, big). -/
def fromBytesBE (bs : Bytes) : Nat := fromBytesLE bs.reverse

/-- Model of unsigned_to_varint from src/bsv/utils/binary.py.  The source raises
OverflowError for values of 2^64 or more; all uses and claims stay below 2^64,
where the function is total. -/
def unsigned_to_varint (num : Nat) : Bytes :=
  if num ≤ 0xfc then toBytesLE num 1
  else if num ≤ 0xffff then 0xfd :: toBytesLE num 2
  else if num ≤ 0xffffffff then 0xfe :: toBytesLE num 4
  else 0xff :: toBytesLE num 8

namespace Reader

/-- Model of Reader.read from src/bsv/utils/reader.py: BytesIO.read returns up to
n bytes, and the Reader wrapper turns an empty result into None.  The reader
state is the list of bytes not yet consumed. -/
def read (bs : Bytes) (n : Nat) : Option (Bytes × Bytes) :=
  if bs.take n = [] then none else some (bs.take n, bs.drop n)

/-- Model of Reader.read_uint8. -/
def read_uint8 (bs : Bytes) : Option (Nat × Bytes) :=
  match bs with
  | [] => none
  | b :: rest => some (b, rest)

/-- Model of Reader.read_uint16_le: int.from_bytes of up to 2 bytes, None only
when no byte at all is available. -/
def read_uint16_le (bs : Bytes) : Option (Nat × Bytes) :=
  (read bs 2).map (fun p => (fromBytesLE p.1, p.2))

/-- Model of Reader.read_uint32_le. -/
def read_uint32_le (bs : Bytes) : Option (Nat × Bytes) :=
  (read bs 4).map (fun p => (fromBytesLE p.1, p.2))

/-- Model of Reader.read_var_int_num from src/bsv/utils/reader.py.  A first byte
below 253 is the value itself; markers 253, 254, 255 are followed by a 2, 4 or
8 byte little-endian value.  The final else branch of the source raises on a
first byte above 255, which cannot occur for well-formed bytes. -/
def read_var_int_num (bs : Bytes) : Option (Nat × Bytes) :=
  match bs with
  | [] => none
  | b :: rest =>
    if b < 253 then some (b, rest)
    else if b = 253 then read_uint16_le rest
    else if b = 254 then read_uint32_le rest
    else if b = 255 then (read rest 8).map (fun p => (fromBytesLE p.1, p.2))
    else none

end Reader

namespace TxStream

/-- Model of TransactionBytesIO.read_bytes from src/bsv/transaction.py: returns up
to n bytes together with the rest of the stream, never failing. -/
def read_bytes (bs : Bytes) (n : Nat) : Bytes × Bytes := (bs.take n, bs.drop n)

/-- Model of TransactionBytesIO.read_int: reads up to k bytes, asserts the result
is non-empty, and decodes little-endian. -/
def read_int (bs : Bytes) (k : Nat) : Option (Nat × Bytes) :=
  let p := read_bytes bs k
  if p.1 = [] then none else some (fromBytesLE p.1, p.2)

/-- Model of TransactionBytesIO.read_varint: one marker byte then, for markers
0xfd, 0xfe and 0xff, a 2, 4 or 8 byte little-endian value read via read_int. -/
def read_varint (bs : Bytes) : Option (Nat × Bytes) :=
  match bs with
  | [] => none
  | b :: rest =>
    if b ≤ 0xfc then some (b, rest)
    else if b = 0xfd then read_int rest 2
    else if b = 0xfe then read_int rest 4
    else read_int rest 8

end TxStream

/-- Modelled from the spec: NUMBER_BYTE_LENGTH from constants.py (a module of
this repository that is not under src), the fixed byte length of a serialized
signature component, 32. -/
def NUMBER_BYTE_LENGTH : Nat := 32

/-- Modelled from the spec: the order n of the signing curve, from curve.py
(not under src).  The spec calls it the curve order used for the canonical
low-S normalization; the network signs on secp256k1, whose order this is. -/
def curve_n : Nat :=
  0xfffffffffffffffffffffffffffffffebaaedce6af48a03bbfd25e8cd0364141

/-- Model of serialize_ecdsa_der from src/bsv/utils/ecdsa.py.  Failure (none)
covers the exceptions of the source: OverflowError from to_bytes on an
out-of-range value, and IndexError from indexing the stripped byte string when
it is empty (component value 0). -/
def serialize_ecdsa_der (sig : Nat × Nat) : Option Bytes :=
  let r := sig.1
  let s := if sig.2 > curve_n / 2 then curve_n - sig.2 else sig.2
  if r < 256 ^ NUMBER_BYTE_LENGTH ∧ s < 256 ^ NUMBER_BYTE_LENGTH then
    match (toBytesBE r NUMBER_BYTE_LENGTH).dropWhile (· == 0),
        (toBytesBE s NUMBER_BYTE_LENGTH).dropWhile (· == 0) with
    | rb0 :: rtail, sb0 :: stail =>
      let r_bytes := if rb0 &&& 0x80 ≠ 0 then 0 :: rb0 :: rtail else rb0 :: rtail
      let s_bytes := if sb0 &&& 0x80 ≠ 0 then 0 :: sb0 :: stail else sb0 :: stail
      let serialized := 0x02 :: r_bytes.length :: (r_bytes ++ (0x02 :: s_bytes.length :: s_bytes))
      some (0x30 :: serialized.length :: serialized)
    | _, _ => none
  else none

/-- Model of deserialize_ecdsa_der from src/bsv/utils/ecdsa.py.  The source
wraps its body in try/except and raises ValueError on any failure; the model
returns none there.  Indexing failures map to none via get?, and the negative
slice signature[-s_len:] is the last s_len bytes, clamped, with s_len = 0
degenerating to the whole string exactly as in Python. -/
def deserialize_ecdsa_der (signature : Bytes) : Option (Nat × Nat) :=
  match signature.get? 0 with
  | none => none
  | some b0 =>
    match signature.get? 1 with
    | none => none
    | some b1 =>
      match signature.get? 2 with
      | none => none
      | some b2 =>
        match signature.get? 3 with
        | none => none
        | some r_len =>
          if b0 = 0x30 ∧ b1 = signature.length - 2 ∧ b2 = 0x02 then
            let r := fromBytesBE ((signature.drop 4).take r_len)
            match signature.get? (4 + r_len) with
            | none => none
            | some t =>
              if t = 0x02 then
                match signature.get? (5 + r_len) with
                | none => none
                | some s_len =>
                  let s_bytes := if s_len = 0 then signature
                    else signature.drop (signature.length - s_len)
                  some (r, fromBytesBE s_bytes)
              else none
          else none

/-- Modelled from the spec: the base64 alphabet of RFC 4648 as used by the
Python standard library b64encode and b64decode (external collaborators of the
repository). -/
def b64alphabet : List Char :=
  "ABCDEFGHIJKLMNOPQRSTUVWXYZabcdefghijklmnopqrstuvwxyz0123456789+/".data

/-- Character of a six-bit group. -/
def b64char (k : Nat) : Char := b64alphabet.getD k 'A'

/-- Position of a character in the base64 alphabet, none for a foreign
character. -/
def b64index (c : Char) : Option Nat :=
  match b64alphabet.indexOf? c with
  | some k => some k
  | none => none

/-- Modelled from the spec: base64 encoding of a byte string (Python
b64encode), three bytes to four alphabet characters with terminal padding. -/
def b64encodeBytes : Bytes → List Char
  | [] => []
  | [a] => [b64char (a / 4), b64char (a % 4 * 16), Char.ofNat 61, Char.ofNat 61]
  | [a, b] => [b64char (a / 4), b64char (a % 4 * 16 + b / 16), b64char (b % 16 * 4), Char.ofNat 61]
  | a :: b :: c :: rest =>
    b64char (a / 4) :: b64char (a % 4 * 16 + b / 16) :: b64char (b % 16 * 4 + c / 64) ::
      b64char (c % 64) :: b64encodeBytes rest

/-- Modelled from the spec: base64 decoding (Python b64decode), the inverse of
b64encodeBytes on well-formed input, none on a malformed string. -/
def b64decodeChars : List Char → Option Bytes
  | [] => some []
  | c0 :: c1 :: c2 :: c3 :: rest =>
    match b64index c0 with
    | none => none
    | some i0 =>
      match b64index c1 with
      | none => none
      | some i1 =>
        if c2 = Char.ofNat 61 then
          if c3 = Char.ofNat 61 ∧ rest = [] then some [i0 * 4 + i1 / 16] else none
        else
          match b64index c2 with
          | none => none
          | some i2 =>
            if c3 = Char.ofNat 61 then
              if rest = [] then some [i0 * 4 + i1 / 16, i1 % 16 * 16 + i2 / 4] else none
            else
              match b64index c3 with
              | none => none
              | some i3 =>
                (b64decodeChars rest).map
                  (fun bs => (i0 * 4 + i1 / 16) :: (i1 % 16 * 16 + i2 / 4) ::
                    (i2 % 4 * 64 + i3) :: bs)
  | _ => none

/-- Model of deserialize_ecdsa_recoverable from src/bsv/utils/ecdsa.py: asserts
a 65 byte string whose final byte, the recovery id, is at most 3, and splits it
into two 32 byte big-endian components and the id.  The assertion failures of
the source become none. -/
def deserialize_ecdsa_recoverable (signature : Bytes) : Option (Nat × Nat × Nat) :=
  if signature.length = 65 then
    if signature.getD 64 0 ≤ 3 then
      some (fromBytesBE (signature.take 32), fromBytesBE ((signature.drop 32).take 32),
        signature.getD 64 0)
    else none
  else none

/-- Model of stringify_ecdsa_recoverable from src/bsv/utils/ecdsa.py: prefix
byte 27 + recovery id, plus 4 when the public key is compressed, prepended to
the first 64 signature bytes and base64 encoded.  The produced Python str is
modelled by its character list. -/
def stringify_ecdsa_recoverable (signature : Bytes) (compressed : Bool) :
    Option (List Char) :=
  match deserialize_ecdsa_recoverable signature with
  | none => none
  | some (_, _, recovery_id) =>
    some (b64encodeBytes
      ((27 + recovery_id + (if compressed then 4 else 0)) :: signature.take 64))

/-- Model of unstringify_ecdsa_recoverable from src/bsv/utils/ecdsa.py: base64
decode, assert 65 bytes and a prefix in 27..34, subtract 4 and report a
compressed key when the prefix is at least 31, and return the 65 byte
signature with the recovery id restored as final byte. -/
def unstringify_ecdsa_recoverable (signature : List Char) : Option (Bytes × Bool) :=
  match b64decodeChars signature with
  | none => none
  | some serialized =>
    if serialized.length = 65 then
      if 27 ≤ serialized.getD 0 0 ∧ serialized.getD 0 0 < 35 then
        some (serialized.drop 1 ++
          [(if 31 ≤ serialized.getD 0 0 then serialized.getD 0 0 - 4
            else serialized.getD 0 0) - 27],
          decide (31 ≤ serialized.getD 0 0))
      else none
    else none

/-- Modelled from the spec: SIGHASH base type ALL from constants.py (not under
src), value 0x01. -/
def SIGHASH_ALL : Nat := 0x01

/-- Modelled from the spec: SIGHASH base type NONE, value 0x02. -/
def SIGHASH_NONE : Nat := 0x02

/-- Modelled from the spec: SIGHASH base type SINGLE, value 0x03. -/
def SIGHASH_SINGLE : Nat := 0x03

/-- Modelled from the spec: SIGHASH modifier FORKID, value 0x40. -/
def SIGHASH_FORKID : Nat := 0x40

/-- Modelled from the spec: SIGHASH modifier ANYONECANPAY, value 0x80. -/
def SIGHASH_ANYONECANPAY : Nat := 0x80

/-- Modelled from the spec: the default sighash ALL combined with FORKID,
value 0x41. -/
def SIGHASH_ALL_FORKID : Nat := 0x41

/-- Modelled from the spec: the polymorphic script-type contract of
script/type.py (not under src), represented as the closed variant set the spec
prescribes: pay-to-pubkey-hash, data carrier (null data) and unknown/opaque. -/
inductive ScriptType where
  | P2PKH
  | OpReturn
  | Unknown
deriving DecidableEq, Repr

/-- Modelled from the spec: estimated_unlocking_byte_length of the script
types.  Pay-to-pubkey-hash estimates 1 + 72 + 1 + 1 + 33 = 107 bytes for the
pushed signature with sighash byte and the compressed public key; the
unknown/opaque variant returns 0, signalling that the caller must supply the
unlocking script; the data-carrier kind is unspendable and also yields 0. -/
def ScriptType.estimated_unlocking_byte_length : ScriptType → Nat
  | .P2PKH => 107
  | .OpReturn => 0
  | .Unknown => 0

/-- Model of TxInput from src/bsv/transaction.py.  The txid hex string is
modelled by its 32 underlying bytes (the source keeps lowercase hex of these
bytes); Script objects are modelled by their byte lists, with the optional
unlocking script absent until signing; PrivateKey objects are opaque signing
capabilities and are modelled by natural identifiers.  The height and
confirmations bookkeeping fields, which neither the serialized form nor any
claim touches, are not modelled. -/
structure TxInput where
  txid : Bytes
  vout : Nat
  value : Nat
  private_keys : List Nat
  script_type : ScriptType
  locking_script : Bytes
  unlocking_script : Option Bytes
  sequence : Nat
  sighash : Nat
deriving DecidableEq, Repr

/-- Model of TxInput.serialize: reversed txid, 4 byte little-endian vout, the
unlocking script behind its varint length (a lone zero byte when unsigned),
then the 4 byte little-endian sequence. -/
def TxInput.serialize (i : TxInput) : Bytes :=
  i.txid.reverse ++ toBytesLE i.vout 4 ++
    (match i.unlocking_script with
     | some s => unsigned_to_varint s.length ++ s
     | none => [0]) ++
    toBytesLE i.sequence 4

/-- Model of TxOutput from src/bsv/transaction.py: a satoshi value, a locking
script and a script-type tag. -/
structure TxOutput where
  value : Nat
  locking_script : Bytes
  script_type : ScriptType
deriving DecidableEq, Repr

/-- Model of TxOutput.serialize: 8 byte little-endian value, varint script
length, script bytes. -/
def TxOutput.serialize (o : TxOutput) : Bytes :=
  toBytesLE o.value 8 ++ unsigned_to_varint o.locking_script.length ++ o.locking_script

/-- Model of the module default FEE_RATE = 0.5 satoshi per byte from
src/bsv/transaction.py.  The Python float carries this value exactly, so it is
embedded as the rational 1/2. -/
def FEE_RATE : ℚ := 1 / 2

/-- Model of Transaction from src/bsv/transaction.py: ordered inputs and
outputs, version, locktime and a fee rate.  The network and provider handles
concern only the external broadcast collaborator and carry no transaction
state. -/
structure Transaction where
  inputs : List TxInput
  outputs : List TxOutput
  version : Nat
  locktime : Nat
  fee_rate : ℚ
deriving DecidableEq, Repr

/-- Model of Transaction.serialize: version, varint input count, inputs,
varint output count, outputs, locktime. -/
def Transaction.serialize (t : Transaction) : Bytes :=
  toBytesLE t.version 4 ++ unsigned_to_varint t.inputs.length ++
    (t.inputs.map TxInput.serialize).join ++
    unsigned_to_varint t.outputs.length ++
    (t.outputs.map TxOutput.serialize).join ++
    toBytesLE t.locktime 4

/-- Model of TxInput.from_hex reading from a shared stream: the stream is the
not yet consumed byte list, and the parsed input is returned with the rest.
The source builds the result through an Unspent record carrying value 0 and an
empty locking script; the remaining Unspent defaults (no private keys, the
Unknown script type) come from unspent.py, which is not under src and is
modelled from the spec data model.  Exceptions and failed assertions of the
source become none.  The source does not compare the bytes read for the
unlocking script against the announced length. -/
def TxInput.fromStream (s : Bytes) : Option (TxInput × Bytes) :=
  let p := TxStream.read_bytes s 32
  if p.1.reverse.length = 32 then
    match TxStream.read_int p.2 4 with
    | none => none
    | some (vout, s2) =>
      match TxStream.read_varint s2 with
      | none => none
      | some (script_length, s3) =>
        let q := TxStream.read_bytes s3 script_length
        match TxStream.read_int q.2 4 with
        | none => none
        | some (sequence, s5) =>
          some ({ txid := p.1.reverse, vout := vout, value := 0, private_keys := [],
                  script_type := .Unknown, locking_script := [],
                  unlocking_script := some q.1,
                  sequence := sequence, sighash := SIGHASH_ALL_FORKID }, s5)
  else none

/-- Model of TxOutput.from_hex reading from a shared stream: 8 byte value,
varint script length, script bytes; the constructor from a raw script defaults
the script type to Unknown. -/
def TxOutput.fromStream (s : Bytes) : Option (TxOutput × Bytes) :=
  match TxStream.read_int s 8 with
  | none => none
  | some (value, s1) =>
    match TxStream.read_varint s1 with
    | none => none
    | some (script_length, s2) =>
      let q := TxStream.read_bytes s2 script_length
      some ({ value := value, locking_script := q.1, script_type := .Unknown }, q.2)

/-- Model of the input-count loop of Transaction.from_hex. -/
def readInputs : Nat → Bytes → Option (List TxInput × Bytes)
  | 0, st => some ([], st)
  | n + 1, st =>
    match TxInput.fromStream st with
    | none => none
    | some (i, s1) =>
      match readInputs n s1 with
      | none => none
      | some (is, s2) => some (i :: is, s2)

/-- Model of the output-count loop of Transaction.from_hex. -/
def readOutputs : Nat → Bytes → Option (List TxOutput × Bytes)
  | 0, st => some ([], st)
  | n + 1, st =>
    match TxOutput.fromStream st with
    | none => none
    | some (o, s1) =>
      match readOutputs n s1 with
      | none => none
      | some (os, s2) => some (o :: os, s2)

/-- Model of Transaction.from_hex on a byte stream: version, varint counted
inputs and outputs, locktime; the fresh Transaction carries the module default
fee rate.  Any exception of the source becomes none. -/
def Transaction.fromBytes (s : Bytes) : Option Transaction :=
  match TxStream.read_int s 4 with
  | none => none
  | some (version, s1) =>
    match TxStream.read_varint s1 with
    | none => none
    | some (inputs_count, s2) =>
      match readInputs inputs_count s2 with
      | none => none
      | some (ins, s3) =>
        match TxStream.read_varint s3 with
        | none => none
        | some (outputs_count, s4) =>
          match readOutputs outputs_count s4 with
          | none => none
          | some (outs, s5) =>
            match TxStream.read_int s5 4 with
            | none => none
            | some (locktime, _) =>
              some { inputs := ins, outputs := outs, version := version,
                     locktime := locktime, fee_rate := FEE_RATE }

/-- Model of one hex digit as accepted by Python bytes.fromhex. -/
def hexDigit (c : Char) : Option Nat :=
  if c.toNat ≥ 48 ∧ c.toNat ≤ 57 then some (c.toNat - 48)
  else if c.toNat ≥ 97 ∧ c.toNat ≤ 102 then some (c.toNat - 87)
  else if c.toNat ≥ 65 ∧ c.toNat ≤ 70 then some (c.toNat - 55)
  else none

/-- Model of Python bytes.fromhex on a separator-free string: pairs of hex
digits; an odd length or a foreign character raises, hence none. -/
def bytesFromHex : List Char → Option Bytes
  | [] => some []
  | [_] => none
  | c1 :: c2 :: rest =>
    match hexDigit c1 with
    | none => none
    | some h1 =>
      match hexDigit c2 with
      | none => none
      | some h2 =>
        (bytesFromHex rest).map (fun bs => (16 * h1 + h2) :: bs)

/-- Model of Transaction.from_hex on a hex string, the string given by its
character list: decode the hex, then parse; a failed hex decode becomes none
through the suppressed exception. -/
def Transaction.from_hex (s : List Char) : Option Transaction :=
  match bytesFromHex s with
  | none => none
  | some bs => Transaction.fromBytes bs

/-- Model of TxInput.from_hex on a standalone byte string: parse from the
start, discarding the unread rest. -/
def TxInput.from_hex (s : Bytes) : Option TxInput :=
  (TxInput.fromStream s).map (fun p => p.1)

/-- Model of TxOutput.from_hex on a standalone byte string. -/
def TxOutput.from_hex (s : Bytes) : Option TxOutput :=
  (TxOutput.fromStream s).map (fun p => p.1)

/-- Well-formedness of an input: every machine-width field is in range and
the txid has its 32 bytes.  These are the validity bounds the Python data
model guarantees by construction. -/
def TxInput.wf (i : TxInput) : Prop :=
  i.txid.length = 32 ∧ i.vout < 2 ^ 32 ∧ i.sequence < 2 ^ 32 ∧
    (i.unlocking_script.getD []).length < 2 ^ 64

/-- Well-formedness of an output. -/
def TxOutput.wf (o : TxOutput) : Prop :=
  o.value < 2 ^ 64 ∧ o.locking_script.length < 2 ^ 64

/-- Well-formedness of a transaction. -/
def Transaction.wf (t : Transaction) : Prop :=
  t.version < 2 ^ 32 ∧ t.locktime < 2 ^ 32 ∧ t.inputs.length < 2 ^ 64 ∧
    t.outputs.length < 2 ^ 64 ∧ (∀ i ∈ t.inputs, i.wf) ∧ (∀ o ∈ t.outputs, o.wf)

/-- Modelled from the spec: the SHA-256 round constants (hash.py of the
repository is not under src; the spec prescribes double SHA-256, realized here
from the FIPS 180-4 standard). -/
def shaK : List Nat := [1116352408, 1899447441, 3049323471, 3921009573,
  961987163, 1508970993, 2453635748, 2870763221, 3624381080, 310598401,
  607225278, 1426881987, 1925078388, 2162078206, 2614888103, 3248222580,
  3835390401, 4022224774, 264347078, 604807628, 770255983, 1249150122,
  1555081692, 1996064986, 2554220882, 2821834349, 2952996808, 3210313671,
  3336571891, 3584528711, 113926993, 338241895, 666307205, 773529912,
  1294757372, 1396182291, 1695183700, 1986661051, 2177026350, 2456956037,
  2730485921, 2820302411, 3259730800, 3345764771, 3516065817, 3600352804,
  4094571909, 275423344, 430227734, 506948616, 659060556, 883997877,
  958139571, 1322822218, 1537002063, 1747873779, 1955562222, 2024104815,
  2227730452, 2361852424, 2428436474, 2756734187, 3204031479, 3329325298]

/-- SHA-256 initial state words. -/
def shaH0 : List Nat := [1779033703, 3144134277, 1013904242, 2773480762,
  1359893119, 2600822924, 528734635, 1541459225]

/-- Right rotation of a 32-bit word. -/
def rotr32 (n x : Nat) : Nat := (x / 2 ^ n + x % 2 ^ n * 2 ^ (32 - n)) % 2 ^ 32

/-- SHA-256 message-schedule sigma functions. -/
def shaSigma0 (x : Nat) : Nat := rotr32 7 x ^^^ rotr32 18 x ^^^ (x / 2 ^ 3)

/-- Second schedule sigma. -/
def shaSigma1 (x : Nat) : Nat := rotr32 17 x ^^^ rotr32 19 x ^^^ (x / 2 ^ 10)

/-- SHA-256 compression Sigma functions. -/
def shaBigSigma0 (x : Nat) : Nat := rotr32 2 x ^^^ rotr32 13 x ^^^ rotr32 22 x

/-- Second compression Sigma. -/
def shaBigSigma1 (x : Nat) : Nat := rotr32 6 x ^^^ rotr32 11 x ^^^ rotr32 25 x

/-- The choose function on 32-bit words. -/
def shaCh (e f g : Nat) : Nat := (e &&& f) ^^^ ((2 ^ 32 - 1 - e % 2 ^ 32) &&& g)

/-- The majority function. -/
def shaMaj (a b c : Nat) : Nat := Nat.xor (Nat.xor (Nat.land a b) (Nat.land a c)) (Nat.land b c)

/-- Extend the 16 chunk words to the 64 schedule words. -/
def shaExtend : Nat → List Nat → List Nat
  | 0, w => w
  | k + 1, w =>
    shaExtend k (w ++ [(shaSigma1 (w.getD (w.length - 2) 0) + w.getD (w.length - 7) 0 +
      shaSigma0 (w.getD (w.length - 15) 0) + w.getD (w.length - 16) 0) % 2 ^ 32])

/-- One SHA-256 round on the eight word state; kw is the sum of the round
constant and the schedule word. -/
def shaRound (st : List Nat) (kw : Nat) : List Nat :=
  let a := st.getD 0 0
  let b := st.getD 1 0
  let c := st.getD 2 0
  let d := st.getD 3 0
  let e := st.getD 4 0
  let f := st.getD 5 0
  let g := st.getD 6 0
  let h := st.getD 7 0
  let t1 := (h + shaBigSigma1 e + shaCh e f g + kw) % 2 ^ 32
  let t2 := (shaBigSigma0 a + shaMaj a b c) % 2 ^ 32
  [(t1 + t2) % 2 ^ 32, a, b, c, (d + t1) % 2 ^ 32, e, f, g]

/-- Compress one 64 byte chunk, given as its 16 words, into the running
state. -/
def shaCompress (chunk : List Nat) (h : List Nat) : List Nat :=
  let w := shaExtend 48 chunk
  let final := (List.range 64).foldl (fun st t => shaRound st (shaK.getD t 0 + w.getD t 0)) h
  List.zipWith (fun x y => (x + y) % 2 ^ 32) h final

/-- The 16 big-endian words of a 64 byte chunk. -/
def chunkWords (chunk : Bytes) : List Nat :=
  (List.range 16).map (fun i => fromBytesBE ((chunk.drop (4 * i)).take 4))

/-- SHA-256 padding: the 0x80 byte, zeros to 56 modulo 64, then the bit length
big-endian in 8 bytes. -/
def shaPad (msg : Bytes) : Bytes :=
  msg ++ [0x80] ++ List.replicate ((119 - msg.length % 64) % 64) 0 ++
    toBytesBE (msg.length * 8) 8

/-- Fold the compression over the chunks; fuel bounds the recursion by the
byte count. -/
def shaChunks : Nat → Bytes → List Nat → List Nat
  | 0, _, h => h
  | fuel + 1, bs, h =>
    if bs = [] then h
    else shaChunks fuel (bs.drop 64) (shaCompress (chunkWords (bs.take 64)) h)

/-- SHA-256 of a byte string. -/
def sha256 (msg : Bytes) : Bytes :=
  let padded := shaPad msg
  ((shaChunks padded.length padded shaH0).map (fun w => toBytesBE w 4)).join

/-- Modelled from the spec: hash256 from hash.py (not under src), the double
SHA-256 the spec calls dsha256. -/
def hash256 (msg : Bytes) : Bytes := sha256 (sha256 msg)

/-- Model of Transaction.total_value_in. -/
def Transaction.total_value_in (t : Transaction) : Nat :=
  (t.inputs.map TxInput.value).sum

/-- Model of Transaction.total_value_out. -/
def Transaction.total_value_out (t : Transaction) : Nat :=
  (t.outputs.map TxOutput.value).sum

/-- Model of Transaction.fee: input value minus output value, possibly
negative while the transaction is under construction. -/
def Transaction.fee (t : Transaction) : Int :=
  (t.total_value_in : Int) - (t.total_value_out : Int)

/-- Model of Transaction.byte_length. -/
def Transaction.byte_length (t : Transaction) : Nat := t.serialize.length

/-- Model of Transaction.txid: the double SHA-256 of the serialization in
reversed byte order (the source renders these bytes as lowercase hex). -/
def Transaction.txid (t : Transaction) : Bytes := (hash256 t.serialize).reverse

/-- Model of Transaction.estimated_byte_length: the fixed envelope, each
signed input by its exact serialized length, each unsigned input by 41 bytes
plus the script-type estimate, each output by its exact serialized length. -/
def Transaction.estimated_byte_length (t : Transaction) : Nat :=
  4 + (unsigned_to_varint t.inputs.length).length +
    (unsigned_to_varint t.outputs.length).length + 4 +
    (t.inputs.map (fun i =>
      match i.unlocking_script with
      | some _ => i.serialize.length
      | none => 41 + i.script_type.estimated_unlocking_byte_length)).sum +
    (t.outputs.map (fun o =>
      8 + (unsigned_to_varint o.locking_script.length).length +
        o.locking_script.length)).sum

/-- Model of Transaction.estimated_fee: the ceiling of fee rate times the
estimated byte length. -/
def Transaction.estimated_fee (t : Transaction) : Int :=
  Int.ceil (t.fee_rate * (t.estimated_byte_length : ℚ))

/-- Fallback input for positional indexing inside the digest batch; every
access is guarded in range, so the fallback never surfaces. -/
def defaultInput : TxInput :=
  { txid := [], vout := 0, value := 0, private_keys := [], script_type := .Unknown,
    locking_script := [], unlocking_script := none, sequence := 0, sighash := 0 }

/-- Fallback output for positional indexing. -/
def defaultOutput : TxOutput :=
  { value := 0, locking_script := [], script_type := .Unknown }

/-- Model of Transaction._digest: the BIP-143 style preimage of one input,
given the three selected hash fields. -/
def Transaction.preimage (t : Transaction) (inp : TxInput)
    (hash_prevouts hash_sequence hash_outputs : Bytes) : Bytes :=
  toBytesLE t.version 4 ++ hash_prevouts ++ hash_sequence ++
    inp.txid.reverse ++ toBytesLE inp.vout 4 ++
    unsigned_to_varint inp.locking_script.length ++ inp.locking_script ++
    toBytesLE inp.value 8 ++ toBytesLE inp.sequence 4 ++ hash_outputs ++
    toBytesLE t.locktime 4 ++ toBytesLE inp.sighash 4

/-- Model of Transaction.digests: the three hashes are computed once, then for
each input the flags of its sighash select the hash fields of its preimage. -/
def Transaction.digests (t : Transaction) : List Bytes :=
  let hash_prevouts := hash256 ((t.inputs.map
    (fun i => i.txid.reverse ++ toBytesLE i.vout 4)).join)
  let hash_sequence := hash256 ((t.inputs.map
    (fun i => toBytesLE i.sequence 4)).join)
  let hash_outputs := hash256 ((t.outputs.map TxOutput.serialize).join)
  (List.range t.inputs.length).map (fun i =>
    let inp := t.inputs.getD i defaultInput
    let sighash := inp.sighash
    let hp := if sighash &&& SIGHASH_ANYONECANPAY = 0 then hash_prevouts
      else List.replicate 32 0
    let hs := if sighash &&& SIGHASH_ANYONECANPAY = 0 ∧
        sighash &&& 0x1f ≠ SIGHASH_SINGLE ∧ sighash &&& 0x1f ≠ SIGHASH_NONE then
        hash_sequence
      else List.replicate 32 0
    let ho := if sighash &&& 0x1f ≠ SIGHASH_SINGLE ∧ sighash &&& 0x1f ≠ SIGHASH_NONE then
        hash_outputs
      else if sighash &&& 0x1f = SIGHASH_SINGLE ∧ i < t.outputs.length then
        hash256 ((t.outputs.getD i defaultOutput).serialize)
      else List.replicate 32 0
    t.preimage inp hp hs ho)

/-- Model of base58chars from src/bsv/utils/base58_utils.py. -/
def base58chars : List Char :=
  "123456789ABCDEFGHJKLMNPQRSTUVWXYZabcdefghijkmnopqrstuvwxyz".data

/-- Big-endian bytes of a natural, empty for zero: the divmod loop of
from_base58.  The fuel equals the number, which bounds the recursion. -/
def natBytesBEAux : Nat → Nat → Bytes
  | 0, _ => []
  | fuel + 1, n =>
    if n = 0 then [] else natBytesBEAux fuel (n / 256) ++ [n % 256]

/-- Entry point of the divmod loop. -/
def natBytesBE (n : Nat) : Bytes := natBytesBEAux n n

/-- Count of leading character 1 in a base58 string. -/
def leading1s : List Char → Nat
  | [] => 0
  | c :: rest => if c = '1' then leading1s rest + 1 else 0

/-- Model of from_base58 from src/bsv/utils/base58_utils.py: reject an empty
string or any character outside the alphabet (the source rejects 0, I, O, l
explicitly and every other foreign character through str.index raising), fold
the positions base 58, and prepend one zero byte per leading 1. -/
def from_base58 (s : List Char) : Option Bytes :=
  if s = [] then none
  else if s.all (fun c => base58chars.contains c) then
    some (List.replicate (leading1s s) 0 ++
      natBytesBE (s.foldl (fun acc c => acc * 58 + base58chars.indexOf c) 0))
  else none

/-- Modelled from the spec: base58check decoding as decode_address uses it
(base58.py is not under src; src/bsv/utils/base58_utils.py holds the same
logic in from_base58_check): base58 decode, then verify that the last 4 bytes
equal the first 4 bytes of the double SHA-256 of the one byte prefix plus
payload; a mismatch fails.  Returns the payload between prefix and checksum,
the decoded address hash. -/
def decode_address_payload (s : List Char) : Option Bytes :=
  match from_base58 s with
  | none => none
  | some bin =>
    let pd := bin.take 1 ++ (bin.drop 1).take (bin.length - 5)
    if (hash256 pd).take 4 = bin.drop (bin.length - 4) then
      some ((bin.drop 1).take (bin.length - 5))
    else none

/-- Model of the address shape test of decode_address from
src/bsv/utils/address.py: one of the characters 1, m, n followed by 24 to 33
characters of the base58 alphabet. -/
def addressShapeOk (address : List Char) : Bool :=
  match address with
  | [] => false
  | c :: rest =>
    (['1', 'm', 'n'] : List Char).contains c &&
      decide (24 ≤ rest.length) && decide (rest.length ≤ 33) &&
      rest.all (fun d => base58chars.contains d)

/-- Model of address_to_public_key_hash from src/bsv/utils/address.py: shape
check, base58check decode, payload. -/
def address_to_public_key_hash (address : List Char) : Option Bytes :=
  if addressShapeOk address then decode_address_payload address else none

/-- Modelled from the spec: P2PKH.locking from script/type.py (not under src):
the pay-to-pubkey-hash locking script OP_DUP OP_HASH160 push-20 hash
OP_EQUALVERIFY OP_CHECKSIG over the decoded 20 byte public key hash of the
address; an undecodable address raises, hence none. -/
def P2PKH_locking (address : List Char) : Option Bytes :=
  match address_to_public_key_hash address with
  | none => none
  | some pkh => some ([0x76, 0xa9, 0x14] ++ pkh ++ [0x88, 0xac])

/-- Model of Transaction.add_change: the marginal size of one more
pay-to-pubkey-hash output is 34 bytes plus the growth of the output count
varint; the expected fee is recomputed over the estimated length including
that margin; a strictly positive surplus is appended as a change output, to
the supplied address or to the locking script of the first pay-to-pubkey-hash
input, and the source raises (here: error) when neither destination exists or
the supplied address does not decode. -/
def Transaction.add_change (t : Transaction) (change_address : Option (List Char)) :
    Except String Transaction :=
  let size_increased := 34 + (unsigned_to_varint (t.outputs.length + 1)).length -
    (unsigned_to_varint t.outputs.length).length
  let fee_expected := Int.ceil (t.fee_rate * ((t.estimated_byte_length + size_increased : Nat) : ℚ))
  let fee_overpaid := t.fee - fee_expected
  if 0 < fee_overpaid then
    match change_address with
    | none =>
      match t.inputs.find? (fun i => i.script_type == ScriptType.P2PKH) with
      | some i => .ok { t with outputs := t.outputs ++
          [{ value := fee_overpaid.toNat, locking_script := i.locking_script,
             script_type := .P2PKH }] }
      | none => .error "cannot parse any address from transaction inputs"
    | some addr =>
      match P2PKH_locking addr with
      | none => .error "invalid P2PKH address"
      | some sc => .ok { t with outputs := t.outputs ++
          [{ value := fee_overpaid.toNat, locking_script := sc,
             script_type := .P2PKH }] }
  else .ok t

/-- Lowercase hex character of a value below 16. -/
def hexChar (k : Nat) : Char := "0123456789abcdef".data.getD k (Char.ofNat 48)

/-- Model of Transaction.hex: lowercase hex of the serialization. -/
def bytesToHex (bs : Bytes) : List Char :=
  (bs.map (fun b => [hexChar (b / 16), hexChar (b % 16)])).join

/-- Model of Transaction.broadcast: with the fee check enabled, a transaction
paying less than the estimated fee raises InsufficientFunds carrying the
required total (outputs plus expected fee) against the available inputs;
otherwise the serialized hex is handed to the external broadcaster service,
modelled as returning that hex. -/
def Transaction.broadcast (t : Transaction) (check_fee : Bool) :
    Except String (List Char) :=
  let fee_expected := t.estimated_fee
  if check_fee ∧ t.fee < fee_expected then
    .error ("require " ++ toString ((t.total_value_out : Int) + fee_expected) ++
      " satoshi but only " ++ toString (t.total_value_in : Int))
  else .ok (bytesToHex t.serialize)

/-- Statuses the source groups as progressing. -/
def progressingStatuses : List String := ["UNKNOWN", "QUEUED", "RECEIVED", "STORED",
  "ANNOUNCED_TO_NETWORK", "REQUESTED_BY_NETWORK", "SENT_TO_NETWORK",
  "ACCEPTED_BY_NETWORK"]

/-- Model of ARC.categorize_transaction_status from
src/bsv/broadcasters/arc.py: the response fields txStatus and competingTxs are
passed as the optional values dictionary get returns; Python truthiness makes
a missing or empty txStatus an error and a missing or empty competingTxs list
non-competing.  Returns the status category string. -/
def categorize_transaction_status (txStatus : Option String)
    (competingTxs : Option (List String)) : String :=
  match txStatus with
  | some ts =>
    if ts ≠ "" then
      if ts ∈ progressingStatuses then "progressing"
      else if ts ∈ ["MINED"] then "mined"
      else if ts ∈ ["MINED_IN_STALE_BLOCK"] then "0confirmation"
      else if ts ∈ ["DOUBLE_SPEND_ATTEMPTED"] then "warning"
      else if ts ∈ ["SEEN_ON_NETWORK"] then
        match competingTxs with
        | some l => if l ≠ [] then "warning" else "0confirmation"
        | none => "0confirmation"
      else if ts ∈ ["ERROR", "REJECTED", "SEEN_IN_ORPHAN_MEMPOOL"] then "rejected"
      else "unknown_txStatus: " ++ ts
    else "error"
  | none => "error"

/-- The input a deserialization pass reconstructs from a serialized input: the
serialized fields survive, the absent unlocking script resurfaces as the empty
script, and every field the wire format does not carry is reset to its
construction default. -/
def TxInput.reparsed (i : TxInput) : TxInput :=
  { txid := i.txid, vout := i.vout, value := 0, private_keys := [],
    script_type := .Unknown, locking_script := [],
    unlocking_script := some (i.unlocking_script.getD []),
    sequence := i.sequence, sighash := SIGHASH_ALL_FORKID }

/-- The output a deserialization pass reconstructs: value and locking script
survive, the script type resets to Unknown. -/
def TxOutput.reparsed (o : TxOutput) : TxOutput :=
  { value := o.value, locking_script := o.locking_script, script_type := .Unknown }

/-- The transaction a deserialization pass reconstructs. -/
def Transaction.reparsed (t : Transaction) : Transaction :=
  { inputs := t.inputs.map TxInput.reparsed,
    outputs := t.outputs.map TxOutput.reparsed,
    version := t.version, locktime := t.locktime, fee_rate := FEE_RATE }

/-- A concrete valid transaction whose single input spends 5 satoshis: the
round-trip counterexample. -/
def c2tx : Transaction :=
  { inputs := [{ txid := List.replicate 32 0, vout := 0, value := 5,
                 private_keys := [], script_type := .Unknown, locking_script := [],
                 unlocking_script := none, sequence := 0xffffffff,
                 sighash := SIGHASH_ALL_FORKID }],
    outputs := [], version := 1, locktime := 0, fee_rate := FEE_RATE }

instance (i : TxInput) : Decidable i.wf := by
  unfold TxInput.wf
  infer_instance

instance (o : TxOutput) : Decidable o.wf := by
  unfold TxOutput.wf
  infer_instance

instance (t : Transaction) : Decidable t.wf := by
  unfold Transaction.wf
  infer_instance

/-- A concrete input signing with SINGLE and FORKID (0x43). -/
def c1in : TxInput :=
  { txid := List.replicate 32 0, vout := 0, value := 9, private_keys := [],
    script_type := .Unknown, locking_script := [0xaa], unlocking_script := none,
    sequence := 0xffffffff, sighash := 0x43 }

/-- A concrete 1-input, 0-output transaction under sighash SINGLE: the
out-of-range case of the digest batch. -/
def c1tx : Transaction :=
  { inputs := [c1in], outputs := [], version := 1, locktime := 0,
    fee_rate := FEE_RATE }

/-- The surplus add_change computes: the actual fee minus the expected fee
over the estimated signed size extended by the marginal cost of one more
pay-to-pubkey-hash output, 34 bytes plus the growth of the output-count
varint. -/
def changeSurplus (t : Transaction) : Int :=
  t.fee - Int.ceil (t.fee_rate * ((t.estimated_byte_length +
    (34 + (unsigned_to_varint (t.outputs.length + 1)).length -
      (unsigned_to_varint t.outputs.length).length) : Nat) : ℚ))

/-- A concrete transaction with one pay-to-pubkey-hash input worth 1000
satoshis and no outputs, used to exercise change insertion. -/
def t5tx : Transaction :=
  { inputs := [{ txid := List.replicate 32 0, vout := 0, value := 1000,
                 private_keys := [7], script_type := .P2PKH,
                 locking_script := [1, 2, 3], unlocking_script := none,
                 sequence := 0xffffffff, sighash := SIGHASH_ALL_FORKID }],
    outputs := [], version := 1, locktime := 0, fee_rate := FEE_RATE }

-- ### Theorems

theorem length_toBytesLE (n k : Nat) : (toBytesLE n k).length = k := by
  induction k generalizing n with
  | zero => rfl
  | succ k ih => simp [toBytesLE, ih]

theorem toBytesLE_ne_nil (n k : Nat) (hk : 0 < k) : toBytesLE n k ≠ [] := by
  cases k with
  | zero => omega
  | succ k => simp [toBytesLE]

theorem fromBytesLE_toBytesLE (n k : Nat) (h : n < 256 ^ k) :
    fromBytesLE (toBytesLE n k) = n := by
  induction k generalizing n with
  | zero => simp [toBytesLE, fromBytesLE]; omega
  | succ k ih =>
    have hdiv : n / 256 < 256 ^ k := by
      apply Nat.div_lt_of_lt_mul
      calc n < 256 ^ (k + 1) := h
        _ = 256 * 256 ^ k := by ring
    simp [toBytesLE, fromBytesLE, ih _ hdiv]
    omega

theorem mem_toBytesLE_lt (n k : Nat) (b : Nat) (hb : b ∈ toBytesLE n k) : b < 256 := by
  induction k generalizing n with
  | zero => simp [toBytesLE] at hb
  | succ k ih =>
    simp [toBytesLE] at hb
    rcases hb with h | h
    · omega
    · exact ih _ h

theorem Reader.read_exact (xs rest : Bytes) (n : Nat) (hlen : xs.length = n)
    (hne : xs ≠ []) : Reader.read (xs ++ rest) n = some (xs, rest) := by
  have ht : (xs ++ rest).take n = xs := by
    rw [← hlen]; exact List.take_left xs rest
  have hd : (xs ++ rest).drop n = rest := by
    rw [← hlen]; exact List.drop_left xs rest
  simp [Reader.read, ht, hd, hne]

theorem TxStream.read_int_exact (v k : Nat) (rest : Bytes) (hv : v < 256 ^ k)
    (hk : 0 < k) : TxStream.read_int (toBytesLE v k ++ rest) k = some (v, rest) := by
  have ht : (toBytesLE v k ++ rest).take k = toBytesLE v k := by
    have h := List.take_left (toBytesLE v k) rest
    rwa [length_toBytesLE] at h
  have hd : (toBytesLE v k ++ rest).drop k = rest := by
    have h := List.drop_left (toBytesLE v k) rest
    rwa [length_toBytesLE] at h
  simp [TxStream.read_int, TxStream.read_bytes, ht, hd, toBytesLE_ne_nil v k hk,
    fromBytesLE_toBytesLE v k hv]

theorem Reader.read_le_exact (v k : Nat) (rest : Bytes) (hv : v < 256 ^ k)
    (hk : 0 < k) :
    (Reader.read (toBytesLE v k ++ rest) k).map (fun p => (fromBytesLE p.1, p.2)) =
      some (v, rest) := by
  rw [Reader.read_exact (toBytesLE v k) rest k (length_toBytesLE v k)
    (toBytesLE_ne_nil v k hk)]
  simp [fromBytesLE_toBytesLE v k hv]

/-- Claim C1 of the varint codec (claim id C4): the writer emits one raw byte for
values up to 0xfc, marker 0xfd plus two little-endian bytes up to 0xffff, marker
0xfe plus four bytes up to 0xffffffff, and marker 0xff plus eight bytes below
2^64; the reader is a left inverse of the writer, and accepts each of the four
forms for every value that fits in it, whether or not a shorter form existed. -/
theorem varint_write_read_c4 (n : Nat) (rest : Bytes) :
    (n ≤ 0xfc → unsigned_to_varint n = [n]) ∧
    (0xfc < n → n ≤ 0xffff → unsigned_to_varint n = [0xfd, n % 256, n / 2 ^ 8 % 256]) ∧
    (0xffff < n → n ≤ 0xffffffff → unsigned_to_varint n =
      [0xfe, n % 256, n / 2 ^ 8 % 256, n / 2 ^ 16 % 256, n / 2 ^ 24 % 256]) ∧
    (0xffffffff < n → n < 2 ^ 64 → unsigned_to_varint n =
      [0xff, n % 256, n / 2 ^ 8 % 256, n / 2 ^ 16 % 256, n / 2 ^ 24 % 256,
        n / 2 ^ 32 % 256, n / 2 ^ 40 % 256, n / 2 ^ 48 % 256, n / 2 ^ 56 % 256]) ∧
    (n < 2 ^ 64 → Reader.read_var_int_num (unsigned_to_varint n ++ rest) = some (n, rest)) ∧
    (n ≤ 0xfc → Reader.read_var_int_num (n :: rest) = some (n, rest)) ∧
    (n ≤ 0xffff → Reader.read_var_int_num (0xfd :: (toBytesLE n 2 ++ rest)) = some (n, rest)) ∧
    (n ≤ 0xffffffff → Reader.read_var_int_num (0xfe :: (toBytesLE n 4 ++ rest)) = some (n, rest)) ∧
    (n < 2 ^ 64 → Reader.read_var_int_num (0xff :: (toBytesLE n 8 ++ rest)) = some (n, rest)) := by
  have hdd : ∀ a b : Nat, n / a / b = n / (a * b) := fun a b => Nat.div_div_eq_div_mul n a b
  have hraw : n ≤ 0xfc → unsigned_to_varint n = [n] := by
    intro h
    simp [unsigned_to_varint, h, toBytesLE]
    omega
  have hfd : 0xfc < n → n ≤ 0xffff → unsigned_to_varint n = [0xfd, n % 256, n / 2 ^ 8 % 256] := by
    intro h1 h2
    have : ¬ n ≤ 0xfc := by omega
    simp [unsigned_to_varint, this, h2, toBytesLE]
  have hfe : 0xffff < n → n ≤ 0xffffffff → unsigned_to_varint n =
      [0xfe, n % 256, n / 2 ^ 8 % 256, n / 2 ^ 16 % 256, n / 2 ^ 24 % 256] := by
    intro h1 h2
    have e1 : ¬ n ≤ 0xfc := by omega
    have e2 : ¬ n ≤ 0xffff := by omega
    simp [unsigned_to_varint, e1, e2, h2, toBytesLE, hdd]
  have hff : 0xffffffff < n → n < 2 ^ 64 → unsigned_to_varint n =
      [0xff, n % 256, n / 2 ^ 8 % 256, n / 2 ^ 16 % 256, n / 2 ^ 24 % 256,
        n / 2 ^ 32 % 256, n / 2 ^ 40 % 256, n / 2 ^ 48 % 256, n / 2 ^ 56 % 256] := by
    intro h1 _
    have e1 : ¬ n ≤ 0xfc := by omega
    have e2 : ¬ n ≤ 0xffff := by omega
    have e3 : ¬ n ≤ 0xffffffff := by omega
    simp [unsigned_to_varint, e1, e2, e3, toBytesLE, hdd]
  have hacc1 : n ≤ 0xfc → Reader.read_var_int_num (n :: rest) = some (n, rest) := by
    intro h
    have : n < 253 := by omega
    simp [Reader.read_var_int_num, this]
  have hacc2 : n ≤ 0xffff → Reader.read_var_int_num (0xfd :: (toBytesLE n 2 ++ rest)) =
      some (n, rest) := by
    intro h
    have hv : n < 256 ^ 2 := by norm_num; omega
    have h1 : Reader.read_var_int_num (0xfd :: (toBytesLE n 2 ++ rest)) =
        Reader.read_uint16_le (toBytesLE n 2 ++ rest) := by
      simp [Reader.read_var_int_num]
    rw [h1]
    simp only [Reader.read_uint16_le]
    exact Reader.read_le_exact n 2 rest hv (by omega)
  have hacc3 : n ≤ 0xffffffff → Reader.read_var_int_num (0xfe :: (toBytesLE n 4 ++ rest)) =
      some (n, rest) := by
    intro h
    have hv : n < 256 ^ 4 := by norm_num; omega
    have h1 : Reader.read_var_int_num (0xfe :: (toBytesLE n 4 ++ rest)) =
        Reader.read_uint32_le (toBytesLE n 4 ++ rest) := by
      simp [Reader.read_var_int_num]
    rw [h1]
    simp only [Reader.read_uint32_le]
    exact Reader.read_le_exact n 4 rest hv (by omega)
  have hacc4 : n < 2 ^ 64 → Reader.read_var_int_num (0xff :: (toBytesLE n 8 ++ rest)) =
      some (n, rest) := by
    intro h
    have hv : n < 256 ^ 8 := by norm_num; omega
    have h1 : Reader.read_var_int_num (0xff :: (toBytesLE n 8 ++ rest)) =
        (Reader.read (toBytesLE n 8 ++ rest) 8).map (fun p => (fromBytesLE p.1, p.2)) := by
      simp [Reader.read_var_int_num]
    rw [h1]
    exact Reader.read_le_exact n 8 rest hv (by omega)
  refine ⟨hraw, hfd, hfe, hff, ?_, hacc1, hacc2, hacc3, hacc4⟩
  intro h64
  by_cases c1 : n ≤ 0xfc
  · rw [hraw c1]; exact hacc1 c1
  · by_cases c2 : n ≤ 0xffff
    · have : unsigned_to_varint n = 0xfd :: toBytesLE n 2 := by
        simp [unsigned_to_varint, c1, c2]
      rw [this, List.cons_append]; exact hacc2 c2
    · by_cases c3 : n ≤ 0xffffffff
      · have : unsigned_to_varint n = 0xfe :: toBytesLE n 4 := by
          simp [unsigned_to_varint, c1, c2, c3]
        rw [this, List.cons_append]; exact hacc3 c3
      · have : unsigned_to_varint n = 0xff :: toBytesLE n 8 := by
          simp [unsigned_to_varint, c1, c2, c3]
        rw [this, List.cons_append]; exact hacc4 h64

/-- Witness for the varint claim: the over-long encoding fd 00 00 decodes to 0,
and 300 is written as fd 2c 01. -/
theorem varint_write_read_c4_witness :
    Reader.read_var_int_num [253, 0, 0] = some (0, []) ∧
    unsigned_to_varint 300 = [253, 44, 1] := by
  constructor
  · exact (varint_write_read_c4 0 []).2.2.2.2.2.2.1 (by decide)
  · exact (varint_write_read_c4 300 []).2.1 (by decide) (by decide)

theorem fromBytesLE_append_zero (xs : Bytes) : fromBytesLE (xs ++ [0]) = fromBytesLE xs := by
  induction xs with
  | nil => simp [fromBytesLE]
  | cons b rest ih => simp [fromBytesLE, ih]

theorem fromBytesBE_cons_zero (xs : Bytes) : fromBytesBE (0 :: xs) = fromBytesBE xs := by
  simp [fromBytesBE, fromBytesLE_append_zero]

theorem fromBytesBE_dropWhile_zero (bs : Bytes) :
    fromBytesBE (bs.dropWhile (· == 0)) = fromBytesBE bs := by
  induction bs with
  | nil => rfl
  | cons b rest ih =>
    by_cases hb : b = 0
    · subst hb
      rw [fromBytesBE_cons_zero]
      simpa [List.dropWhile] using ih
    · have hbeq : (b == 0) = false := by simp [hb]
      simp [List.dropWhile, hbeq]

theorem fromBytesBE_toBytesBE (n k : Nat) (h : n < 256 ^ k) :
    fromBytesBE (toBytesBE n k) = n := by
  simp [fromBytesBE, toBytesBE, fromBytesLE_toBytesLE n k h]

theorem dropWhile_head_false {p : Nat → Bool} (bs : Bytes) (b0 : Nat) (tail : Bytes)
    (h : bs.dropWhile p = b0 :: tail) : p b0 = false := by
  induction bs with
  | nil => simp [List.dropWhile] at h
  | cons b rest ih =>
    by_cases hp : p b
    · exact ih (by simpa [List.dropWhile, hp] using h)
    · simp [List.dropWhile, hp] at h
      simp [← h.1]
      exact eq_false_of_ne_true hp

theorem mem_of_mem_dropWhile {p : Nat → Bool} (bs : Bytes) (x : Nat)
    (h : x ∈ bs.dropWhile p) : x ∈ bs := by
  induction bs with
  | nil => simpa [List.dropWhile] using h
  | cons b rest ih =>
    by_cases hp : p b
    · simp [List.dropWhile, hp] at h
      exact List.mem_cons_of_mem b (ih h)
    · simpa [List.dropWhile, hp] using h

theorem mem_toBytesBE_lt (n k b : Nat) (hb : b ∈ toBytesBE n k) : b < 256 := by
  rw [toBytesBE, List.mem_reverse] at hb
  exact mem_toBytesLE_lt n k b hb

set_option maxRecDepth 4096 in
theorem and128_iff (b : Nat) (hb : b < 256) : b &&& 128 ≠ 0 ↔ 128 ≤ b := by
  have h : ∀ x : Fin 256, ((x : Nat) &&& 128 ≠ 0 ↔ 128 ≤ (x : Nat)) := by decide
  exact h ⟨b, hb⟩

theorem der_component_strip (x : Nat) (hx : 0 < x) (hlt : x < 256 ^ 32) :
    ∃ b0 tail, (toBytesBE x 32).dropWhile (· == 0) = b0 :: tail ∧ b0 ≠ 0 ∧
      (∀ b ∈ b0 :: tail, b < 256) ∧ fromBytesBE (b0 :: tail) = x := by
  rcases hstrip : (toBytesBE x 32).dropWhile (· == 0) with _ | ⟨b0, tail⟩
  · exfalso
    have h1 : fromBytesBE ((toBytesBE x 32).dropWhile (· == 0)) = x := by
      rw [fromBytesBE_dropWhile_zero, fromBytesBE_toBytesBE x 32 hlt]
    rw [hstrip] at h1
    simp [fromBytesBE, fromBytesLE] at h1
    omega
  · refine ⟨b0, tail, rfl, ?_, ?_, ?_⟩
    · have := dropWhile_head_false _ _ _ hstrip
      simpa using this
    · intro b hbmem
      have : b ∈ (toBytesBE x 32).dropWhile (· == 0) := by rw [hstrip]; exact hbmem
      exact mem_toBytesBE_lt x 32 b (mem_of_mem_dropWhile _ _ this)
    · have h1 : fromBytesBE ((toBytesBE x 32).dropWhile (· == 0)) = x := by
        rw [fromBytesBE_dropWhile_zero, fromBytesBE_toBytesBE x 32 hlt]
      rw [hstrip] at h1
      exact h1

theorem get?_append_add (l₁ l₂ : Bytes) (n : Nat) :
    (l₁ ++ l₂).get? (l₁.length + n) = l₂.get? n := by
  rw [List.get?_append_right (Nat.le_add_right _ _), Nat.add_sub_cancel_left]

theorem deserialize_der_frame (rb sb : Bytes) (hsb : sb.length ≠ 0) :
    deserialize_ecdsa_der
      (0x30 :: (rb.length + sb.length + 4) :: 0x02 :: rb.length ::
        (rb ++ (0x02 :: sb.length :: sb))) =
      some (fromBytesBE rb, fromBytesBE sb) := by
  set e : Bytes := 0x30 :: (rb.length + sb.length + 4) :: 0x02 :: rb.length ::
    (rb ++ (0x02 :: sb.length :: sb)) with he
  have hlen : e.length = rb.length + sb.length + 6 := by
    rw [he]; simp; omega
  have htag2 : e.get? (4 + rb.length) = some 0x02 := by
    have hidx : 4 + rb.length =
        (List.length ([0x30, rb.length + sb.length + 4, 0x02, rb.length] : Bytes)) + (rb.length + 0) := by
      simp
    rw [he]
    show (([0x30, rb.length + sb.length + 4, 0x02, rb.length] : Bytes) ++
      (rb ++ (0x02 :: sb.length :: sb))).get? (4 + rb.length) = some 0x02
    rw [hidx, get?_append_add, get?_append_add]
    rfl
  have hslenb : e.get? (5 + rb.length) = some sb.length := by
    have hidx : 5 + rb.length =
        (List.length ([0x30, rb.length + sb.length + 4, 0x02, rb.length] : Bytes)) + (rb.length + 1) := by
      simp; omega
    rw [he]
    show (([0x30, rb.length + sb.length + 4, 0x02, rb.length] : Bytes) ++
      (rb ++ (0x02 :: sb.length :: sb))).get? (5 + rb.length) = some sb.length
    rw [hidx, get?_append_add, get?_append_add]
    rfl
  have hdrop4 : e.drop 4 = rb ++ (0x02 :: sb.length :: sb) := by rw [he]; rfl
  have hsdrop : e.drop (e.length - sb.length) = sb := by
    have hre : e = (([0x30, rb.length + sb.length + 4, 0x02, rb.length] ++ rb) ++
        [0x02, sb.length]) ++ sb := by
      rw [he]; simp
    have hidx : e.length - sb.length =
        (([0x30, rb.length + sb.length + 4, 0x02, rb.length] ++ rb) ++
          [0x02, sb.length]).length := by
      rw [hlen]; simp; omega
    rw [hidx, hre]
    exact List.drop_left _ _
  have g0 : e.get? 0 = some 0x30 := by rw [he]; rfl
  have g1 : e.get? 1 = some (rb.length + sb.length + 4) := by rw [he]; rfl
  have g2 : e.get? 2 = some 0x02 := by rw [he]; rfl
  have g3 : e.get? 3 = some rb.length := by rw [he]; rfl
  unfold deserialize_ecdsa_der
  rw [g0, g1, g2, g3]
  dsimp only
  rw [if_pos ⟨rfl, by rw [hlen]; omega, rfl⟩]
  rw [htag2]
  dsimp only
  rw [if_pos rfl, hslenb]
  dsimp only
  rw [if_neg hsb]
  rw [hsdrop, hdrop4, List.take_left]

theorem der_field_build (x : Nat) (hx : 0 < x) (hlt : x < 256 ^ 32) (b0 : Nat)
    (tail : Bytes) (hstrip : (toBytesBE x 32).dropWhile (· == 0) = b0 :: tail)
    (hb0ne : b0 ≠ 0) (hblt : ∀ b ∈ b0 :: tail, b < 256)
    (hbval : fromBytesBE (b0 :: tail) = x) :
    fromBytesBE (if b0 &&& 0x80 ≠ 0 then 0 :: b0 :: tail else b0 :: tail) = x ∧
    (if b0 &&& 0x80 ≠ 0 then 0 :: b0 :: tail else b0 :: tail) ≠ [] ∧
    (if b0 &&& 0x80 ≠ 0 then 0 :: b0 :: tail else b0 :: tail).getD 0 0 < 0x80 ∧
    ((if b0 &&& 0x80 ≠ 0 then 0 :: b0 :: tail else b0 :: tail).getD 0 0 = 0 →
      0x80 ≤ (if b0 &&& 0x80 ≠ 0 then 0 :: b0 :: tail else b0 :: tail).getD 1 0) := by
  have hb0 : b0 < 256 := hblt b0 (List.mem_cons_self _ _)
  by_cases hc : b0 &&& 0x80 ≠ 0
  · have h128 : 128 ≤ b0 := (and128_iff b0 hb0).mp hc
    rw [if_pos hc]
    refine ⟨by rw [fromBytesBE_cons_zero]; exact hbval, by simp, by simp, ?_⟩
    intro _
    simpa [List.getD] using h128
  · have h128 : b0 < 128 := by
      by_contra hcon
      exact hc ((and128_iff b0 hb0).mpr (by omega))
    rw [if_neg hc]
    refine ⟨hbval, by simp, by simpa [List.getD] using h128, ?_⟩
    intro h0
    simp [List.getD] at h0
    exact absurd h0 hb0ne

/-- Claim C3: serialize_ecdsa_der normalizes s to the lower of s and n - s and
encodes r and s as big-endian minimal-length integers, each left-padded with one
zero byte exactly when its high bit is set, wrapped as 02 len bytes fields
inside a 30 len envelope; decoding the encoding of a pair with s above n / 2
yields the pair with n - s, which is at most n / 2, and deserialize_ecdsa_der
succeeds only when the outer 0x30 tag, the declared length and both inner 0x02
integer tags match exactly. -/
theorem der_encode_decode_c3 :
    (∀ r s : Nat, 0 < r → r < 256 ^ 32 → 0 < s → s < curve_n → curve_n / 2 < s →
      ∃ rb sb : Bytes,
        serialize_ecdsa_der (r, s) =
          some (0x30 :: (rb.length + sb.length + 4) :: 0x02 :: rb.length ::
            (rb ++ (0x02 :: sb.length :: sb))) ∧
        fromBytesBE rb = r ∧ rb ≠ [] ∧ rb.getD 0 0 < 0x80 ∧
        (rb.getD 0 0 = 0 → 0x80 ≤ rb.getD 1 0) ∧
        fromBytesBE sb = curve_n - s ∧ sb ≠ [] ∧ sb.getD 0 0 < 0x80 ∧
        (sb.getD 0 0 = 0 → 0x80 ≤ sb.getD 1 0) ∧
        deserialize_ecdsa_der (0x30 :: (rb.length + sb.length + 4) :: 0x02 :: rb.length ::
          (rb ++ (0x02 :: sb.length :: sb))) = some (r, curve_n - s) ∧
        curve_n - s ≤ curve_n / 2) ∧
    (∀ sig : Bytes, (deserialize_ecdsa_der sig).isSome = true →
      sig.get? 0 = some 0x30 ∧ sig.get? 1 = some (sig.length - 2) ∧
      sig.get? 2 = some 0x02 ∧
      ∃ rl, sig.get? 3 = some rl ∧ sig.get? (4 + rl) = some 0x02) := by
  constructor
  · intro r s hr hr2 hs hsn hhalf
    have hnlt : curve_n < 256 ^ 32 := by norm_num [curve_n]
    have hs'pos : 0 < curve_n - s := by omega
    have hs'lt : curve_n - s < 256 ^ 32 := by omega
    obtain ⟨rb0, rtail, hrstrip, hrb0ne, hrblt, hrbval⟩ := der_component_strip r hr hr2
    obtain ⟨sb0, stail, hsstrip, hsb0ne, hsblt, hsbval⟩ :=
      der_component_strip (curve_n - s) hs'pos hs'lt
    obtain ⟨hrv, hrne, hrhead, hrmin⟩ :=
      der_field_build r hr hr2 rb0 rtail hrstrip hrb0ne hrblt hrbval
    obtain ⟨hsv, hsne, hshead, hsmin⟩ :=
      der_field_build (curve_n - s) hs'pos hs'lt sb0 stail hsstrip hsb0ne hsblt hsbval
    refine ⟨(if rb0 &&& 0x80 ≠ 0 then 0 :: rb0 :: rtail else rb0 :: rtail),
      (if sb0 &&& 0x80 ≠ 0 then 0 :: sb0 :: stail else sb0 :: stail),
      ?_, hrv, hrne, hrhead, hrmin, hsv, hsne, hshead, hsmin, ?_, by omega⟩
    · unfold serialize_ecdsa_der NUMBER_BYTE_LENGTH
      dsimp only
      rw [if_pos hhalf, if_pos ⟨hr2, hs'lt⟩, hrstrip, hsstrip]
      dsimp only
      have hserlen : ∀ rbx sbx : Bytes,
          (0x02 :: rbx.length :: (rbx ++ (0x02 :: sbx.length :: sbx))).length =
            rbx.length + sbx.length + 4 := by
        intro rbx sbx; simp; omega
      rw [hserlen]
    · have hsblen : (if sb0 &&& 0x80 ≠ 0 then 0 :: sb0 :: stail else sb0 :: stail).length ≠ 0 := by
        by_cases hc : sb0 &&& 0x80 ≠ 0 <;> simp [hc]
      rw [deserialize_der_frame _ _ hsblen, hrv, hsv]
  · intro sig hsome
    unfold deserialize_ecdsa_der at hsome
    rcases e0 : sig.get? 0 with _ | b0
    · rw [e0] at hsome; simp at hsome
    rw [e0] at hsome
    rcases e1 : sig.get? 1 with _ | b1
    · rw [e1] at hsome; simp at hsome
    rw [e1] at hsome
    rcases e2 : sig.get? 2 with _ | b2
    · rw [e2] at hsome; simp at hsome
    rw [e2] at hsome
    rcases e3 : sig.get? 3 with _ | rl
    · rw [e3] at hsome; simp at hsome
    rw [e3] at hsome
    dsimp only at hsome
    by_cases hcond : b0 = 0x30 ∧ b1 = sig.length - 2 ∧ b2 = 0x02
    · rw [if_pos hcond] at hsome
      rcases e4 : sig.get? (4 + rl) with _ | t
      · rw [e4] at hsome; simp at hsome
      rw [e4] at hsome
      dsimp only at hsome
      by_cases ht : t = 0x02
      · exact ⟨by rw [hcond.1], by rw [hcond.2.1], by rw [hcond.2.2],
          rl, rfl, by rw [e4, ht]⟩
      · rw [if_neg ht] at hsome; simp at hsome
    · rw [if_neg hcond] at hsome; simp at hsome

/-- Witness for the DER claim at the concrete pair r = 1, s = n - 1: the s
component is above n / 2, the encoding is produced, and decoding returns
the normalized pair. -/
theorem der_encode_decode_c3_witness :
    ∃ rb sb : Bytes,
      serialize_ecdsa_der (1, curve_n - 1) =
        some (0x30 :: (rb.length + sb.length + 4) :: 0x02 :: rb.length ::
          (rb ++ (0x02 :: sb.length :: sb))) ∧
      fromBytesBE rb = 1 ∧ rb ≠ [] ∧ rb.getD 0 0 < 0x80 ∧
      (rb.getD 0 0 = 0 → 0x80 ≤ rb.getD 1 0) ∧
      fromBytesBE sb = curve_n - (curve_n - 1) ∧ sb ≠ [] ∧ sb.getD 0 0 < 0x80 ∧
      (sb.getD 0 0 = 0 → 0x80 ≤ sb.getD 1 0) ∧
      deserialize_ecdsa_der (0x30 :: (rb.length + sb.length + 4) :: 0x02 :: rb.length ::
        (rb ++ (0x02 :: sb.length :: sb))) = some (1, curve_n - (curve_n - 1)) ∧
      curve_n - (curve_n - 1) ≤ curve_n / 2 :=
  der_encode_decode_c3.1 1 (curve_n - 1) (by norm_num) (by norm_num [curve_n])
    (by norm_num [curve_n]) (by norm_num [curve_n]) (by norm_num [curve_n])

set_option maxRecDepth 8192 in
theorem b64index_b64char (k : Nat) (h : k < 64) : b64index (b64char k) = some k := by
  have hall : ∀ x : Fin 64, b64index (b64char (x : Nat)) = some (x : Nat) := by decide
  exact hall ⟨k, h⟩

set_option maxRecDepth 8192 in
theorem b64char_ne_pad (k : Nat) (h : k < 64) : ¬ b64char k = Char.ofNat 61 := by
  have hall : ∀ x : Fin 64, ¬ b64char (x : Nat) = Char.ofNat 61 := by decide
  exact hall ⟨k, h⟩

theorem b64_roundtrip (bs : Bytes) (h : ∀ b ∈ bs, b < 256) :
    b64decodeChars (b64encodeBytes bs) = some bs := by
  induction bs using b64encodeBytes.induct with
  | case1 => rfl
  | case2 a =>
    have ha : a < 256 := h a (by simp)
    have h0 : a / 4 < 64 := by omega
    have h1 : a % 4 * 16 < 64 := by omega
    simp only [b64encodeBytes, b64decodeChars, b64index_b64char _ h0, b64index_b64char _ h1]
    simp only [and_self, if_true]
    have e0 : a / 4 * 4 + a % 4 * 16 / 16 = a := by omega
    rw [e0]
  | case3 a b =>
    have ha : a < 256 := h a (by simp)
    have hb : b < 256 := h b (by simp)
    have h0 : a / 4 < 64 := by omega
    have h1 : a % 4 * 16 + b / 16 < 64 := by omega
    have h2 : b % 16 * 4 < 64 := by omega
    simp only [b64encodeBytes, b64decodeChars, b64index_b64char _ h0, b64index_b64char _ h1,
      b64index_b64char _ h2]
    rw [if_neg (b64char_ne_pad _ h2)]
    simp only [if_true]
    have e0 : (a / 4) * 4 + (a % 4 * 16 + b / 16) / 16 = a := by omega
    have e1 : (a % 4 * 16 + b / 16) % 16 * 16 + (b % 16 * 4) / 4 = b := by omega
    rw [e0, e1]
  | case4 a b c rest ih =>
    have ha : a < 256 := h a (by simp)
    have hb : b < 256 := h b (by simp)
    have hc : c < 256 := h c (by simp)
    have hrest : ∀ x ∈ rest, x < 256 := by
      intro x hx; exact h x (by simp [hx])
    have h0 : a / 4 < 64 := by omega
    have h1 : a % 4 * 16 + b / 16 < 64 := by omega
    have h2 : b % 16 * 4 + c / 64 < 64 := by omega
    have h3 : c % 64 < 64 := by omega
    simp only [b64encodeBytes, b64decodeChars, b64index_b64char _ h0, b64index_b64char _ h1,
      b64index_b64char _ h2, b64index_b64char _ h3]
    rw [if_neg (b64char_ne_pad _ h2), if_neg (b64char_ne_pad _ h3)]
    rw [ih hrest]
    have e0 : (a / 4) * 4 + (a % 4 * 16 + b / 16) / 16 = a := by omega
    have e1 : (a % 4 * 16 + b / 16) % 16 * 16 + (b % 16 * 4 + c / 64) / 4 = b := by omega
    have e2 : (b % 16 * 4 + c / 64) % 4 * 64 + c % 64 = c := by omega
    simp only [Option.map_some']
    rw [e0, e1, e2]

theorem take_getD_append (n : Nat) (l : Bytes) (hl : l.length = n + 1) :
    l.take n ++ [l.getD n 0] = l := by
  induction n generalizing l with
  | zero =>
    rcases l with _ | ⟨a, t⟩
    · simp at hl
    · have ht : t = [] := by
        simpa using List.length_eq_zero.mp (by simpa using hl)
      subst ht
      simp [List.getD]
  | succ n ih =>
    rcases l with _ | ⟨a, t⟩
    · simp at hl
    · have ht : t.length = n + 1 := by simpa using hl
      show a :: (t.take n ++ [(a :: t).getD (n + 1) 0]) = a :: t
      rw [List.getD_cons_succ, ih t ht]

theorem unstringify_b64_spec (bs : Bytes) (hlen : bs.length = 65)
    (hmem : ∀ b ∈ bs, b < 256) :
    unstringify_ecdsa_recoverable (b64encodeBytes bs) =
      (if 27 ≤ bs.getD 0 0 ∧ bs.getD 0 0 < 35 then
        some (bs.drop 1 ++
          [(if 31 ≤ bs.getD 0 0 then bs.getD 0 0 - 4 else bs.getD 0 0) - 27],
          decide (31 ≤ bs.getD 0 0))
      else none) := by
  unfold unstringify_ecdsa_recoverable
  rw [b64_roundtrip bs hmem]
  dsimp only
  rw [if_pos hlen]

/-- Claim C6: stringify_ecdsa_recoverable produces the base64 encoding of the
prefix byte 27 + recovery id + 4-if-compressed followed by r and s, and
unstringify_ecdsa_recoverable inverts it, returning the original 65 signature
bytes and the compressed flag; parsing fails exactly when the decoded prefix
byte lies outside 27..34, and reports a compressed key, subtracting 4, exactly
when the prefix is at least 31. -/
theorem recoverable_stringify_c6 :
    (∀ (sig : Bytes) (compressed : Bool), sig.length = 65 → (∀ b ∈ sig, b < 256) →
      sig.getD 64 0 ≤ 3 →
      stringify_ecdsa_recoverable sig compressed =
        some (b64encodeBytes
          ((27 + sig.getD 64 0 + (if compressed then 4 else 0)) :: sig.take 64)) ∧
      (stringify_ecdsa_recoverable sig compressed).bind unstringify_ecdsa_recoverable =
        some (sig, compressed)) ∧
    (∀ bs : Bytes, bs.length = 65 → (∀ b ∈ bs, b < 256) →
      (bs.getD 0 0 < 27 ∨ 34 < bs.getD 0 0) →
      unstringify_ecdsa_recoverable (b64encodeBytes bs) = none) ∧
    (∀ bs : Bytes, bs.length = 65 → (∀ b ∈ bs, b < 256) →
      27 ≤ bs.getD 0 0 → bs.getD 0 0 ≤ 34 →
      unstringify_ecdsa_recoverable (b64encodeBytes bs) =
        some (bs.drop 1 ++
          [(if 31 ≤ bs.getD 0 0 then bs.getD 0 0 - 4 else bs.getD 0 0) - 27],
          decide (31 ≤ bs.getD 0 0))) := by
  refine ⟨?p1, ?p2, ?p3⟩
  · intro sig compressed hlen hmem hrec
    have hdeser : deserialize_ecdsa_recoverable sig =
        some (fromBytesBE (sig.take 32), fromBytesBE ((sig.drop 32).take 32),
          sig.getD 64 0) := by
      unfold deserialize_ecdsa_recoverable
      rw [if_pos hlen, if_pos hrec]
    have hstr : stringify_ecdsa_recoverable sig compressed =
        some (b64encodeBytes
          ((27 + sig.getD 64 0 + (if compressed then 4 else 0)) :: sig.take 64)) := by
      unfold stringify_ecdsa_recoverable
      rw [hdeser]
    refine ⟨hstr, ?_⟩
    rw [hstr]
    show unstringify_ecdsa_recoverable (b64encodeBytes
      ((27 + sig.getD 64 0 + (if compressed then 4 else 0)) :: sig.take 64)) =
      some (sig, compressed)
    have hlen64 : (sig.take 64).length = 64 := by simp [List.length_take, hlen]
    have hbs65 : ((27 + sig.getD 64 0 + (if compressed then 4 else 0)) ::
        sig.take 64).length = 65 := by simp [hlen64]
    have hbsmem : ∀ b ∈ (27 + sig.getD 64 0 + (if compressed then 4 else 0)) ::
        sig.take 64, b < 256 := by
      intro b hb
      rcases List.mem_cons.mp hb with h1 | h1
      · subst h1
        have hif : (if compressed then 4 else 0) ≤ 4 := by
          rcases compressed <;> simp
        omega
      · exact hmem b (List.take_subset 64 sig h1)
    rw [unstringify_b64_spec _ hbs65 hbsmem]
    rcases compressed with _ | _
    · simp only [show (if (false : Bool) = true then (4:Nat) else 0) = 0 from rfl,
        List.getD_cons_zero]
      rw [if_pos (by omega : 27 ≤ 27 + sig.getD 64 0 + 0 ∧ 27 + sig.getD 64 0 + 0 < 35)]
      rw [if_neg (by omega : ¬ 31 ≤ 27 + sig.getD 64 0 + 0)]
      have h27 : 27 + sig.getD 64 0 + 0 - 27 = sig.getD 64 0 := by omega
      rw [h27]
      have hdec : decide (31 ≤ 27 + sig.getD 64 0 + 0) = false := by
        simp only [decide_eq_false_iff_not]; omega
      rw [hdec]
      have hdrop : ((27 + sig.getD 64 0 + 0) :: sig.take 64).drop 1 = sig.take 64 := rfl
      rw [hdrop, take_getD_append 64 sig hlen]
    · simp only [List.getD_cons_zero, if_true]
      rw [if_pos (by omega : 27 ≤ 27 + sig.getD 64 0 + 4 ∧ 27 + sig.getD 64 0 + 4 < 35)]
      rw [if_pos (by omega : 31 ≤ 27 + sig.getD 64 0 + 4)]
      have h27 : 27 + sig.getD 64 0 + 4 - 4 - 27 = sig.getD 64 0 := by omega
      rw [h27]
      have hdec : decide (31 ≤ 27 + sig.getD 64 0 + 4) = true := by
        simp only [decide_eq_true_eq]; omega
      rw [hdec]
      have hdrop : ((27 + sig.getD 64 0 + 4) :: sig.take 64).drop 1 = sig.take 64 := rfl
      rw [hdrop, take_getD_append 64 sig hlen]
  · intro bs hlen hmem hout
    rw [unstringify_b64_spec bs hlen hmem]
    rw [if_neg (by omega)]
  · intro bs hlen hmem h27 h34
    rw [unstringify_b64_spec bs hlen hmem]
    rw [if_pos ⟨h27, by omega⟩]

/-- Witness for the stringify claim at the concrete 65 byte signature with 64
bytes of value 7 and recovery id 1, stringified with a compressed key. -/
theorem recoverable_stringify_c6_witness :
    stringify_ecdsa_recoverable (List.replicate 64 7 ++ [1]) true =
      some (b64encodeBytes
        ((27 + (List.replicate 64 7 ++ [1] : Bytes).getD 64 0 + 4) ::
          (List.replicate 64 7 ++ [1] : Bytes).take 64)) ∧
    (stringify_ecdsa_recoverable (List.replicate 64 7 ++ [1]) true).bind
      unstringify_ecdsa_recoverable = some (List.replicate 64 7 ++ [1], true) := by
  have h := recoverable_stringify_c6.1 (List.replicate 64 7 ++ [1]) true
    (by decide) (by decide) (by decide)
  exact ⟨by rw [h.1]; rfl, h.2⟩

theorem TxStream.read_bytes_exact (xs rest : Bytes) :
    TxStream.read_bytes (xs ++ rest) xs.length = (xs, rest) := by
  simp [TxStream.read_bytes, List.take_left, List.drop_left]

theorem varint_len_pos (n : Nat) : 1 ≤ (unsigned_to_varint n).length := by
  unfold unsigned_to_varint
  split
  · simp [length_toBytesLE]
  · split
    · simp
    · split <;> simp

theorem TxStream.read_varint_exact (n : Nat) (rest : Bytes) (h : n < 2 ^ 64) :
    TxStream.read_varint (unsigned_to_varint n ++ rest) = some (n, rest) := by
  by_cases c1 : n ≤ 0xfc
  · have he : unsigned_to_varint n = [n] := by
      simp [unsigned_to_varint, c1, toBytesLE]
      omega
    rw [he]
    simp [TxStream.read_varint, c1]
  · by_cases c2 : n ≤ 0xffff
    · have he : unsigned_to_varint n = 0xfd :: toBytesLE n 2 := by
        simp [unsigned_to_varint, c1, c2]
      rw [he, List.cons_append]
      have hv : n < 256 ^ 2 := by norm_num; omega
      simp only [TxStream.read_varint]
      norm_num
      exact TxStream.read_int_exact n 2 rest hv (by omega)
    · by_cases c3 : n ≤ 0xffffffff
      · have he : unsigned_to_varint n = 0xfe :: toBytesLE n 4 := by
          simp [unsigned_to_varint, c1, c2, c3]
        rw [he, List.cons_append]
        have hv : n < 256 ^ 4 := by norm_num; omega
        simp only [TxStream.read_varint]
        norm_num
        exact TxStream.read_int_exact n 4 rest hv (by omega)
      · have he : unsigned_to_varint n = 0xff :: toBytesLE n 8 := by
          simp [unsigned_to_varint, c1, c2, c3]
        rw [he, List.cons_append]
        have hv : n < 256 ^ 8 := by norm_num; omega
        simp only [TxStream.read_varint]
        norm_num
        exact TxStream.read_int_exact n 8 rest hv (by omega)

theorem txInput_fromStream_serialize (i : TxInput) (hwf : i.wf) (rest : Bytes) :
    TxInput.fromStream (i.serialize ++ rest) = some (i.reparsed, rest) := by
  obtain ⟨hlen, hvout, hseq, hus⟩ := hwf
  have hvout' : i.vout < 256 ^ 4 := hvout.trans_eq (by norm_num)
  have hseq' : i.sequence < 256 ^ 4 := hseq.trans_eq (by norm_num)
  have hassoc : i.serialize ++ rest = i.txid.reverse ++ (toBytesLE i.vout 4 ++
      ((match i.unlocking_script with
        | some s => unsigned_to_varint s.length ++ s
        | none => [0]) ++ (toBytesLE i.sequence 4 ++ rest))) := by
    unfold TxInput.serialize
    simp [List.append_assoc]
  rw [hassoc]
  unfold TxInput.fromStream
  have hrb := TxStream.read_bytes_exact (i.txid.reverse) (toBytesLE i.vout 4 ++
    ((match i.unlocking_script with
      | some s => unsigned_to_varint s.length ++ s
      | none => [0]) ++ (toBytesLE i.sequence 4 ++ rest)))
  rw [List.length_reverse, hlen] at hrb
  rw [hrb]
  dsimp only
  rw [if_pos (by simpa using hlen)]
  rw [TxStream.read_int_exact i.vout 4 _ hvout' (by norm_num)]
  dsimp only
  rcases hu : i.unlocking_script with _ | us
  · dsimp only
    have h0 : ([0] : Bytes) ++ (toBytesLE i.sequence 4 ++ rest) =
        0 :: (toBytesLE i.sequence 4 ++ rest) := rfl
    rw [h0]
    have hv0 : TxStream.read_varint (0 :: (toBytesLE i.sequence 4 ++ rest)) =
        some (0, toBytesLE i.sequence 4 ++ rest) := by
      simp [TxStream.read_varint]
    rw [hv0]
    dsimp only
    have hb0 : TxStream.read_bytes (toBytesLE i.sequence 4 ++ rest) 0 =
        ([], toBytesLE i.sequence 4 ++ rest) := by
      simp [TxStream.read_bytes]
    rw [hb0]
    dsimp only
    rw [TxStream.read_int_exact i.sequence 4 rest hseq' (by norm_num)]
    simp [TxInput.reparsed, hu, List.reverse_reverse]
  · dsimp only
    have huslen : us.length < 2 ^ 64 := by
      rw [hu] at hus
      simpa using hus
    rw [List.append_assoc]
    rw [TxStream.read_varint_exact us.length _ huslen]
    dsimp only
    rw [TxStream.read_bytes_exact us (toBytesLE i.sequence 4 ++ rest)]
    dsimp only
    rw [TxStream.read_int_exact i.sequence 4 rest hseq' (by norm_num)]
    simp [TxInput.reparsed, hu, List.reverse_reverse]

theorem txOutput_fromStream_serialize (o : TxOutput) (hwf : o.wf) (rest : Bytes) :
    TxOutput.fromStream (o.serialize ++ rest) = some (o.reparsed, rest) := by
  obtain ⟨hval, hsl⟩ := hwf
  have hval' : o.value < 256 ^ 8 := hval.trans_eq (by norm_num)
  have hassoc : o.serialize ++ rest = toBytesLE o.value 8 ++
      (unsigned_to_varint o.locking_script.length ++ (o.locking_script ++ rest)) := by
    unfold TxOutput.serialize
    simp [List.append_assoc]
  rw [hassoc]
  unfold TxOutput.fromStream
  rw [TxStream.read_int_exact o.value 8 _ hval' (by norm_num)]
  dsimp only
  rw [TxStream.read_varint_exact o.locking_script.length _ hsl]
  dsimp only
  rw [TxStream.read_bytes_exact o.locking_script rest]
  simp [TxOutput.reparsed]

theorem readInputs_serialize (is : List TxInput) (rest : Bytes)
    (h : ∀ i ∈ is, i.wf) :
    readInputs is.length ((is.map TxInput.serialize).join ++ rest) =
      some (is.map TxInput.reparsed, rest) := by
  induction is generalizing rest with
  | nil => simp [readInputs]
  | cons i tl ih =>
    have hi : i.wf := h i (by simp)
    have htl : ∀ j ∈ tl, j.wf := fun j hj => h j (by simp [hj])
    have hassoc : ((i :: tl).map TxInput.serialize).join ++ rest =
        i.serialize ++ ((tl.map TxInput.serialize).join ++ rest) := by
      simp [List.append_assoc]
    rw [show (i :: tl).length = tl.length + 1 from rfl, hassoc]
    unfold readInputs
    rw [txInput_fromStream_serialize i hi]
    dsimp only
    rw [ih _ htl]
    rfl

theorem readOutputs_serialize (os : List TxOutput) (rest : Bytes)
    (h : ∀ o ∈ os, o.wf) :
    readOutputs os.length ((os.map TxOutput.serialize).join ++ rest) =
      some (os.map TxOutput.reparsed, rest) := by
  induction os generalizing rest with
  | nil => simp [readOutputs]
  | cons o tl ih =>
    have ho : o.wf := h o (by simp)
    have htl : ∀ j ∈ tl, j.wf := fun j hj => h j (by simp [hj])
    have hassoc : ((o :: tl).map TxOutput.serialize).join ++ rest =
        o.serialize ++ ((tl.map TxOutput.serialize).join ++ rest) := by
      simp [List.append_assoc]
    rw [show (o :: tl).length = tl.length + 1 from rfl, hassoc]
    unfold readOutputs
    rw [txOutput_fromStream_serialize o ho]
    dsimp only
    rw [ih _ htl]
    rfl

theorem Transaction.fromBytes_serialize (t : Transaction) (h : t.wf) :
    Transaction.fromBytes t.serialize = some t.reparsed := by
  obtain ⟨hver, hlock, hnin, hnout, hins, houts⟩ := h
  have hver' : t.version < 256 ^ 4 := hver.trans_eq (by norm_num)
  have hlock' : t.locktime < 256 ^ 4 := hlock.trans_eq (by norm_num)
  have hassoc : t.serialize = toBytesLE t.version 4 ++
      (unsigned_to_varint t.inputs.length ++
        ((t.inputs.map TxInput.serialize).join ++
          (unsigned_to_varint t.outputs.length ++
            ((t.outputs.map TxOutput.serialize).join ++
              (toBytesLE t.locktime 4 ++ []))))) := by
    unfold Transaction.serialize
    simp [List.append_assoc]
  rw [hassoc]
  unfold Transaction.fromBytes
  rw [TxStream.read_int_exact t.version 4 _ hver' (by norm_num)]
  dsimp only
  rw [TxStream.read_varint_exact t.inputs.length _ hnin]
  dsimp only
  rw [readInputs_serialize t.inputs _ hins]
  dsimp only
  rw [TxStream.read_varint_exact t.outputs.length _ hnout]
  dsimp only
  rw [readOutputs_serialize t.outputs _ houts]
  dsimp only
  rw [TxStream.read_int_exact t.locktime 4 [] hlock' (by norm_num)]
  rfl

/-- Claim C2 counterexample: a valid transaction whose input carries value 5
serializes and parses back successfully, but not to an equal transaction: the
input value, which the wire format does not carry, comes back as 0, so the
field-for-field round-trip law fails as stated. -/
theorem roundtrip_c2_counterexample :
    c2tx.wf ∧ (Transaction.fromBytes c2tx.serialize).isSome = true ∧
      Transaction.fromBytes c2tx.serialize ≠ some c2tx := by
  have h1 : Transaction.fromBytes c2tx.serialize = some c2tx.reparsed :=
    Transaction.fromBytes_serialize c2tx (by decide)
  refine ⟨by decide, by rw [h1]; rfl, ?_⟩
  intro hcon
  rw [h1] at hcon
  have h2 : c2tx.reparsed = c2tx := Option.some.inj hcon
  have h3 := congrArg (fun tx => (tx.inputs.headD defaultInput).value) h2
  simp [Transaction.reparsed, TxInput.reparsed, c2tx] at h3

/-- Claim C2 as amended: deserializing the serialization of a valid
transaction reproduces version, locktime and, in order, every serialized field
of every input and output: outpoint, script bytes (an unsigned input coming
back with the empty unlocking script) and sequence, output value and locking
script; the fields the wire format does not carry (input value, locking
script, keys, script type, sighash; output script type; the fee rate) are
reset to their construction defaults. -/
theorem roundtrip_serialized_fields_c2 (t : Transaction) (h : t.wf) :
    Transaction.fromBytes t.serialize = some
      { inputs := t.inputs.map (fun i =>
          { txid := i.txid, vout := i.vout, value := 0, private_keys := [],
            script_type := .Unknown, locking_script := [],
            unlocking_script := some (i.unlocking_script.getD []),
            sequence := i.sequence, sighash := SIGHASH_ALL_FORKID }),
        outputs := t.outputs.map (fun o =>
          { value := o.value, locking_script := o.locking_script,
            script_type := .Unknown }),
        version := t.version, locktime := t.locktime, fee_rate := FEE_RATE } :=
  Transaction.fromBytes_serialize t h

/-- Witness for the amended round-trip at the concrete transaction c2tx. -/
theorem roundtrip_serialized_fields_c2_witness :
    Transaction.fromBytes c2tx.serialize = some
      { inputs := c2tx.inputs.map (fun i =>
          { txid := i.txid, vout := i.vout, value := 0, private_keys := [],
            script_type := .Unknown, locking_script := [],
            unlocking_script := some (i.unlocking_script.getD []),
            sequence := i.sequence, sighash := SIGHASH_ALL_FORKID }),
        outputs := c2tx.outputs.map (fun o =>
          { value := o.value, locking_script := o.locking_script,
            script_type := .Unknown }),
        version := c2tx.version, locktime := c2tx.locktime, fee_rate := FEE_RATE } :=
  roundtrip_serialized_fields_c2 c2tx (by decide)

theorem serialize_length_ge (t : Transaction) : 10 ≤ t.serialize.length := by
  unfold Transaction.serialize
  have h1 := varint_len_pos t.inputs.length
  have h2 := varint_len_pos t.outputs.length
  simp [List.length_append, length_toBytesLE]
  omega

/-- Claim C9, the failing input: the truncated 8 byte stream version 01000000,
zero inputs, zero outputs, then only 2 bytes of locktime is not the
serialization of any transaction (every serialization has at least 10 bytes),
yet Transaction.from_hex does not fail on it: read_int accepts the 2 byte
short read for the 4 byte locktime and a fully populated transaction is
returned, contradicting the requirement that malformed streams produce a
failure result. -/
theorem malformed_truncated_accepted_c9 :
    Transaction.fromBytes [1, 0, 0, 0, 0, 0, 0, 0] =
      some { inputs := [], outputs := [], version := 1, locktime := 0,
             fee_rate := FEE_RATE } ∧
    (∀ t : Transaction, t.serialize ≠ [1, 0, 0, 0, 0, 0, 0, 0]) := by
  constructor
  · rfl
  · intro t h
    have hlen := congrArg List.length h
    have hge := serialize_length_ge t
    simp at hlen
    omega

theorem fromStream_defaults (s : Bytes) (i : TxInput) (rest : Bytes)
    (h : TxInput.fromStream s = some (i, rest)) :
    i.value = 0 ∧ i.locking_script = [] ∧ i.private_keys = [] ∧
      i.script_type = .Unknown ∧ i.sighash = SIGHASH_ALL_FORKID := by
  unfold TxInput.fromStream at h
  dsimp only at h
  split at h
  · rcases h1 : TxStream.read_int (TxStream.read_bytes s 32).2 4 with _ | ⟨vout, s2⟩ <;>
      rw [h1] at h
    · exact Option.noConfusion h
    · dsimp only at h
      rcases h2 : TxStream.read_varint s2 with _ | ⟨sl, s3⟩ <;> rw [h2] at h
      · exact Option.noConfusion h
      · dsimp only at h
        rcases h3 : TxStream.read_int (TxStream.read_bytes s3 sl).2 4 with _ | ⟨sq, s5⟩ <;>
          rw [h3] at h
        · exact Option.noConfusion h
        · dsimp only at h
          injection h with h4
          injection h4 with ha hb
          subst ha
          exact ⟨rfl, rfl, rfl, rfl, rfl⟩
  · exact Option.noConfusion h

theorem readInputs_defaults (n : Nat) (s : Bytes) (is : List TxInput) (rest : Bytes)
    (h : readInputs n s = some (is, rest)) :
    ∀ i ∈ is, i.value = 0 ∧ i.locking_script = [] ∧ i.private_keys = [] ∧
      i.script_type = .Unknown ∧ i.sighash = SIGHASH_ALL_FORKID := by
  induction n generalizing s is rest with
  | zero =>
    unfold readInputs at h
    injection h with h1
    injection h1 with ha hb
    subst ha
    intro i hi
    simp at hi
  | succ n ih =>
    unfold readInputs at h
    rcases hfs : TxInput.fromStream s with _ | ⟨i0, s1⟩ <;> rw [hfs] at h
    · exact Option.noConfusion h
    · dsimp only at h
      rcases hri : readInputs n s1 with _ | ⟨is2, s2⟩ <;> rw [hri] at h
      · exact Option.noConfusion h
      · dsimp only at h
        injection h with h1
        injection h1 with ha hb
        subst ha
        intro j hj
        rcases List.mem_cons.mp hj with h2 | h2
        · subst h2
          exact fromStream_defaults s j s1 hfs
        · exact ih s1 is2 s2 hri j h2

/-- Claim C10: every input built by the input deserializer carries value 0, an
empty locking script, no private keys, the Unknown script type and the default
sighash, whatever bytes were parsed; consequently every input of a transaction
built by Transaction.from_hex has those defaults, and the total input value of
such a transaction, hence its fee basis, is 0 regardless of the original spent
outputs. -/
theorem input_defaults_c10 :
    (∀ (s : Bytes) (i : TxInput) (rest : Bytes),
      TxInput.fromStream s = some (i, rest) →
      i.value = 0 ∧ i.locking_script = [] ∧ i.private_keys = [] ∧
        i.script_type = .Unknown ∧ i.sighash = SIGHASH_ALL_FORKID) ∧
    (∀ (bs : Bytes) (t : Transaction), Transaction.fromBytes bs = some t →
      (∀ i ∈ t.inputs, i.value = 0 ∧ i.locking_script = [] ∧ i.private_keys = [] ∧
        i.script_type = .Unknown ∧ i.sighash = SIGHASH_ALL_FORKID) ∧
      t.total_value_in = 0) := by
  refine ⟨fromStream_defaults, ?_⟩
  intro bs t h
  unfold Transaction.fromBytes at h
  rcases h1 : TxStream.read_int bs 4 with _ | ⟨version, s1⟩ <;> rw [h1] at h
  · exact Option.noConfusion h
  dsimp only at h
  rcases h2 : TxStream.read_varint s1 with _ | ⟨nin, s2⟩ <;> rw [h2] at h
  · exact Option.noConfusion h
  dsimp only at h
  rcases h3 : readInputs nin s2 with _ | ⟨ins, s3⟩ <;> rw [h3] at h
  · exact Option.noConfusion h
  dsimp only at h
  rcases h4 : TxStream.read_varint s3 with _ | ⟨nout, s4⟩ <;> rw [h4] at h
  · exact Option.noConfusion h
  dsimp only at h
  rcases h5 : readOutputs nout s4 with _ | ⟨outs, s5⟩ <;> rw [h5] at h
  · exact Option.noConfusion h
  dsimp only at h
  rcases h6 : TxStream.read_int s5 4 with _ | ⟨locktime, s6⟩ <;> rw [h6] at h
  · exact Option.noConfusion h
  dsimp only at h
  injection h with h7
  subst h7
  have hdef := readInputs_defaults nin s2 ins s3 h3
  refine ⟨hdef, ?_⟩
  unfold Transaction.total_value_in
  apply List.sum_eq_zero
  intro x hx
  simp only [List.mem_map] at hx
  obtain ⟨i, hi, hxv⟩ := hx
  rw [← hxv]
  exact (hdef i hi).1

/-- Witness for the input-defaults claim at a concrete 41 byte all-zero
serialized input. -/
theorem input_defaults_c10_witness :
    ({ txid := List.replicate 32 0, vout := 0, value := 0, private_keys := [],
       script_type := .Unknown, locking_script := [], unlocking_script := some [],
       sequence := 0, sighash := SIGHASH_ALL_FORKID } : TxInput).value = 0 ∧
    ({ txid := List.replicate 32 0, vout := 0, value := 0, private_keys := [],
       script_type := .Unknown, locking_script := [], unlocking_script := some [],
       sequence := 0, sighash := SIGHASH_ALL_FORKID } : TxInput).locking_script = [] ∧
    ({ txid := List.replicate 32 0, vout := 0, value := 0, private_keys := [],
       script_type := .Unknown, locking_script := [], unlocking_script := some [],
       sequence := 0, sighash := SIGHASH_ALL_FORKID } : TxInput).private_keys = [] ∧
    ({ txid := List.replicate 32 0, vout := 0, value := 0, private_keys := [],
       script_type := .Unknown, locking_script := [], unlocking_script := some [],
       sequence := 0, sighash := SIGHASH_ALL_FORKID } : TxInput).script_type = .Unknown ∧
    ({ txid := List.replicate 32 0, vout := 0, value := 0, private_keys := [],
       script_type := .Unknown, locking_script := [], unlocking_script := some [],
       sequence := 0, sighash := SIGHASH_ALL_FORKID } : TxInput).sighash = SIGHASH_ALL_FORKID :=
  input_defaults_c10.1 (List.replicate 41 0) _ [] (by decide)

/-- Claim C8: the status categorization maps MINED to mined, QUEUED to
progressing, SEEN_ON_NETWORK with competing transactions to warning and
without to 0confirmation, a missing txStatus to error, and an unrecognized
status v to the unknown_txStatus category carrying v. -/
theorem status_categorization_c8 :
    (∀ c, categorize_transaction_status (some ("MINED")) c = "mined") ∧
    (∀ c, categorize_transaction_status (some ("QUEUED")) c = "progressing") ∧
    (∀ l, l ≠ [] →
      categorize_transaction_status (some ("SEEN_ON_NETWORK")) (some l) = "warning") ∧
    (categorize_transaction_status (some ("SEEN_ON_NETWORK")) (some []) = "0confirmation") ∧
    (categorize_transaction_status (some ("SEEN_ON_NETWORK")) none = "0confirmation") ∧
    (∀ c, categorize_transaction_status none c = "error") ∧
    (∀ v c, v ∉ progressingStatuses →
      v ∉ (["MINED", "MINED_IN_STALE_BLOCK", "DOUBLE_SPEND_ATTEMPTED",
        "SEEN_ON_NETWORK", "ERROR", "REJECTED", "SEEN_IN_ORPHAN_MEMPOOL"] : List String) →
      v ≠ "" →
      categorize_transaction_status (some v) c = "unknown_txStatus: " ++ v) := by
  refine ⟨fun c => rfl, fun c => rfl, ?_, rfl, rfl, fun c => rfl, ?_⟩
  · intro l hl
    show (if l ≠ [] then ("warning" : String) else "0confirmation") = "warning"
    exact if_pos hl
  · intro v c h1 h2 h3
    simp only [List.mem_cons, List.mem_singleton, not_or] at h2
    obtain ⟨hm, hst, hd, hseen, herr, hrej, horph⟩ := h2
    unfold categorize_transaction_status
    dsimp only
    rw [if_pos h3, if_neg h1]
    rw [if_neg (by simp [hm] : ¬ v ∈ (["MINED"] : List String))]
    rw [if_neg (by simp [hst] : ¬ v ∈ (["MINED_IN_STALE_BLOCK"] : List String))]
    rw [if_neg (by simp [hd] : ¬ v ∈ (["DOUBLE_SPEND_ATTEMPTED"] : List String))]
    rw [if_neg (by simp [hseen] : ¬ v ∈ (["SEEN_ON_NETWORK"] : List String))]
    rw [if_neg (by simp [herr, hrej, horph.1] :
      ¬ v ∈ (["ERROR", "REJECTED", "SEEN_IN_ORPHAN_MEMPOOL"] : List String))]

/-- Witness for the status categorization at concrete responses. -/
theorem status_categorization_c8_witness :
    categorize_transaction_status (some ("SEEN_ON_NETWORK")) (some ["x"]) = "warning" ∧
    categorize_transaction_status (some ("FOO")) none = "unknown_txStatus: FOO" := by
  constructor
  · exact status_categorization_c8.2.2.1 ["x"] (by decide)
  · exact (status_categorization_c8.2.2.2.2.2.2 ("FOO") none (by decide) (by decide)
      (by decide)).trans (by decide)

theorem and_31_eq_mod (n : Nat) : n &&& 0x1f = n % 32 := by
  have h := Nat.and_pow_two_sub_one_eq_mod n 5
  norm_num at h
  exact h

theorem and_128_eq_zero_iff (n : Nat) : n &&& 0x80 = 0 ↔ n.testBit 7 = false := by
  have h := Nat.and_two_pow n 7
  norm_num at h
  rw [h]
  cases hb : n.testBit 7 <;> simp

/-- Claim C1: for every transaction and input index, the digest preimage of
that input selects its three hash fields from the sighash flags exactly as the
spec describes: hash_prevouts is zeroed when ANYONECANPAY (bit 7) is set, else
the precomputed hash of all outpoints; hash_sequence is zeroed when
ANYONECANPAY is set or the base type (the low five bits) is SINGLE or NONE,
else the precomputed hash of all sequences; hash_outputs is the hash of all
serialized outputs unless the base type is SINGLE or NONE, the double SHA-256
of the output at the same index when the base type is SINGLE and the index is
in range, and 32 zero bytes otherwise; the batch never fails and yields one
preimage per input, so a 1-input, 0-output transaction under SINGLE digests
with zeroed hash_outputs. -/
theorem digest_selection_c1 (t : Transaction) (i : Nat) (inp : TxInput)
    (h : t.inputs.get? i = some inp) :
    t.digests.length = t.inputs.length ∧
    t.digests.get? i = some (t.preimage inp
      (if inp.sighash.testBit 7 then List.replicate 32 0
       else hash256 ((t.inputs.map (fun j => j.txid.reverse ++ toBytesLE j.vout 4)).join))
      (if inp.sighash.testBit 7 ∨ inp.sighash % 32 = SIGHASH_SINGLE ∨
          inp.sighash % 32 = SIGHASH_NONE then List.replicate 32 0
       else hash256 ((t.inputs.map (fun j => toBytesLE j.sequence 4)).join))
      (if inp.sighash % 32 ≠ SIGHASH_SINGLE ∧ inp.sighash % 32 ≠ SIGHASH_NONE then
        hash256 ((t.outputs.map TxOutput.serialize).join)
       else if inp.sighash % 32 = SIGHASH_SINGLE ∧ i < t.outputs.length then
        hash256 ((t.outputs.getD i defaultOutput).serialize)
       else List.replicate 32 0)) := by
  obtain ⟨hlt, hget⟩ := List.get?_eq_some.mp h
  constructor
  · unfold Transaction.digests
    simp
  · unfold Transaction.digests
    rw [List.get?_map, List.get?_range hlt]
    simp only [Option.map_some']
    have hgd : t.inputs.getD i defaultInput = inp := by
      rw [List.getD_eq_get t.inputs defaultInput hlt]
      exact hget
    rw [hgd]
    simp only [SIGHASH_ANYONECANPAY, SIGHASH_SINGLE, SIGHASH_NONE, and_31_eq_mod,
      and_128_eq_zero_iff]
    rcases hb : inp.sighash.testBit 7 <;>
      by_cases h3 : inp.sighash % 32 = 3 <;>
      by_cases h2 : inp.sighash % 32 = 2 <;>
      simp [hb, h3, h2]

/-- Witness for the digest selection claim: the 1-input, 0-output transaction
under sighash SINGLE with FORKID produces exactly one preimage and does not
fail; since 0x43 has bit 7 clear and base type SINGLE with no output at index
0, its hash_prevouts is the precomputed outpoint hash, its hash_sequence and
hash_outputs are 32 zero bytes. -/
theorem digest_selection_c1_witness :
    c1tx.digests.length = c1tx.inputs.length ∧
    c1tx.digests.get? 0 = some (c1tx.preimage c1in
      (if c1in.sighash.testBit 7 then List.replicate 32 0
       else hash256 ((c1tx.inputs.map (fun j => j.txid.reverse ++ toBytesLE j.vout 4)).join))
      (if c1in.sighash.testBit 7 ∨ c1in.sighash % 32 = SIGHASH_SINGLE ∨
          c1in.sighash % 32 = SIGHASH_NONE then List.replicate 32 0
       else hash256 ((c1tx.inputs.map (fun j => toBytesLE j.sequence 4)).join))
      (if c1in.sighash % 32 ≠ SIGHASH_SINGLE ∧ c1in.sighash % 32 ≠ SIGHASH_NONE then
        hash256 ((c1tx.outputs.map TxOutput.serialize).join)
       else if c1in.sighash % 32 = SIGHASH_SINGLE ∧ 0 < c1tx.outputs.length then
        hash256 ((c1tx.outputs.getD 0 defaultOutput).serialize)
       else List.replicate 32 0)) :=
  digest_selection_c1 c1tx 0 c1in rfl

/-- Claim C5: add_change recomputes the expected fee over the estimated
signed size plus the marginal cost of one pay-to-pubkey-hash output (34 bytes
plus the output-count varint growth) and appends exactly one output carrying
the surplus if and only if the surplus is strictly positive: to the supplied
change address when given, else to the locking script of the first
pay-to-pubkey-hash input, and fails when no destination is available; a
non-positive surplus leaves the outputs unchanged. -/
theorem add_change_c5 (t : Transaction) :
    (changeSurplus t ≤ 0 → ∀ a, t.add_change a = .ok t) ∧
    (0 < changeSurplus t →
      (∀ i, t.inputs.find? (fun j => j.script_type == ScriptType.P2PKH) = some i →
        t.add_change none = .ok { t with outputs := t.outputs ++
          [{ value := (changeSurplus t).toNat, locking_script := i.locking_script,
             script_type := .P2PKH }] }) ∧
      (t.inputs.find? (fun j => j.script_type == ScriptType.P2PKH) = none →
        ∃ e, t.add_change none = .error e) ∧
      (∀ addr sc, P2PKH_locking addr = some sc →
        t.add_change (some addr) = .ok { t with outputs := t.outputs ++
          [{ value := (changeSurplus t).toNat, locking_script := sc,
             script_type := .P2PKH }] })) := by
  have hfo : ∀ a, t.add_change a =
      (if 0 < changeSurplus t then
        match a with
        | none =>
          match t.inputs.find? (fun i => i.script_type == ScriptType.P2PKH) with
          | some i => .ok { t with outputs := t.outputs ++
              [{ value := (changeSurplus t).toNat, locking_script := i.locking_script,
                 script_type := .P2PKH }] }
          | none => .error "cannot parse any address from transaction inputs"
        | some addr =>
          match P2PKH_locking addr with
          | none => .error "invalid P2PKH address"
          | some sc => .ok { t with outputs := t.outputs ++
              [{ value := (changeSurplus t).toNat, locking_script := sc,
                 script_type := .P2PKH }] }
      else .ok t) := by
    intro a
    rfl
  constructor
  · intro hle a
    rw [hfo a, if_neg (by omega)]
  · intro hpos
    refine ⟨?_, ?_, ?_⟩
    · intro i hfind
      rw [hfo none, if_pos hpos]
      dsimp only
      rw [hfind]
    · intro hfind
      rw [hfo none, if_pos hpos]
      dsimp only
      rw [hfind]
      exact ⟨_, rfl⟩
    · intro addr sc hsc
      rw [hfo (some addr), if_pos hpos]
      dsimp only
      rw [hsc]

/-- Witness for add_change: the concrete 1000 satoshi pay-to-pubkey-hash
funded transaction has surplus 1000 - ceil(0.5 * (158 + 34)) = 904 and the
fallback destination reuses the first input locking script. -/
theorem add_change_c5_witness :
    t5tx.add_change none = .ok { t5tx with outputs := t5tx.outputs ++
      [{ value := (changeSurplus t5tx).toNat,
         locking_script := [1, 2, 3], script_type := .P2PKH }] } := by
  have hsur : changeSurplus t5tx = 904 := by
    have h1 : t5tx.fee = 1000 := by decide
    have h2 : t5tx.estimated_byte_length = 158 := by decide
    have h3 : (unsigned_to_varint (t5tx.outputs.length + 1)).length = 1 := by decide
    have h4 : (unsigned_to_varint t5tx.outputs.length).length = 1 := by decide
    have h5 : t5tx.fee_rate = (1 : ℚ)/2 := rfl
    unfold changeSurplus
    rw [h1, h2, h3, h4, h5]
    norm_num
  have hfind : t5tx.inputs.find? (fun j => j.script_type == ScriptType.P2PKH) =
      some { txid := List.replicate 32 0, vout := 0, value := 1000,
             private_keys := [7], script_type := .P2PKH,
             locking_script := [1, 2, 3], unlocking_script := none,
             sequence := 0xffffffff, sighash := SIGHASH_ALL_FORKID } := by decide
  exact (add_change_c5 t5tx).2 (by rw [hsur]; norm_num) |>.1 _ hfind

/-- Claim C7: with the fee check enabled, broadcast fails with the
insufficient-funds error exactly when the fee paid is below the estimated fee,
the message carrying the required total (output value plus expected fee)
against the available input value; when the check passes or is disabled, the
serialized transaction hex is handed to the broadcaster service. -/
theorem broadcast_fee_check_c7 (t : Transaction) :
    (t.fee < t.estimated_fee → t.broadcast true = .error
      ("require " ++ toString ((t.total_value_out : Int) + t.estimated_fee) ++
       " satoshi but only " ++ toString (t.total_value_in : Int))) ∧
    (t.estimated_fee ≤ t.fee → t.broadcast true = .ok (bytesToHex t.serialize)) ∧
    (t.broadcast false = .ok (bytesToHex t.serialize)) := by
  refine ⟨?_, ?_, ?_⟩
  · intro h
    unfold Transaction.broadcast
    rw [if_pos ⟨rfl, h⟩]
  · intro h
    unfold Transaction.broadcast
    rw [if_neg (fun hc => absurd hc.2 (by omega))]
  · unfold Transaction.broadcast
    rw [if_neg (fun hc => by exact absurd hc.1 (by simp))]

/-- Witness for the broadcast fee check: the concrete transaction c2tx pays
fee 5 below its estimated fee 26, so the check fails with the required and
available amounts; disabling the check hands over the hex. -/
theorem broadcast_fee_check_c7_witness :
    c2tx.broadcast true = .error
      ("require " ++ toString ((c2tx.total_value_out : Int) + c2tx.estimated_fee) ++
       " satoshi but only " ++ toString (c2tx.total_value_in : Int)) ∧
    c2tx.broadcast false = .ok (bytesToHex c2tx.serialize) := by
  have hest : c2tx.estimated_fee = 26 := by
    have h2 : c2tx.estimated_byte_length = 51 := by decide
    have h5 : c2tx.fee_rate = (1 : ℚ)/2 := rfl
    unfold Transaction.estimated_fee
    rw [h2, h5]
    norm_num [Int.ceil_eq_iff]
  have hfee : c2tx.fee = 5 := by decide
  constructor
  · exact (broadcast_fee_check_c7 c2tx).1 (by rw [hest, hfee]; norm_num)
  · exact (broadcast_fee_check_c7 c2tx).2.2
